import Mathlib

/-!
# Floral: a cooperative green-thread scheduler

A shallow embedding of `src/floral/src/main.c` (the scheduler proper) together
with the properties of its specification that the code settles.

The scheduler state of the C program is the global `STATE` (the ring of thread
control blocks and the `current` pointer) plus the heap of TCBs it points
into.  The functions of `main.c` are embedded as functions on that state; a
dereference of a pointer that is not a live TCB makes the function return
`none`.

This development covers `main.c`.  The helpers it calls from `thread.c`
(`grn_new_thread`, `grn_destroy_thread`, `next_thread`, `add_thread`,
`remove_thread`) and the assembly routine `grn_context_switch` are modelled
from the specification, and say so in their documentation; the constant
`STACK_SIZE` of `thread.h` and the address of the trampoline `start_thread`
are parameters.
-/

namespace Floral

/-! ## Data model -/

/-- Status of a thread control block. -/
inductive grn_status where
  | INIT
  | READY
  | RUNNING
  | ZOMBIE
deriving DecidableEq, Repr

open grn_status

/-- Saved execution context of a thread.  `main.c` names one field of it, the
saved stack pointer `rsp`; the resume address of a suspended thread is the
return address found at that stack pointer. -/
structure grn_context where
  rsp : Nat
deriving DecidableEq, Repr

/-- Thread control block.  `stack` is the base address of the stack block the
TCB owns, `none` for a thread that runs on the stack of the process (the
bootstrap thread). -/
structure grn_thread where
  id : Int
  status : grn_status
  condition : Int
  context : grn_context
  stack : Option Nat
deriving DecidableEq, Repr

/-- Address of a thread control block (`grn_thread *`); the null pointer is
`none : Option Ptr`. -/
abbrev Ptr := Nat

/-- The global `STATE` of `main.c` and the memory it refers to.

* `threads`: the ring, as the list of TCB addresses in traversal order starting
  at `STATE.threads`;
* `current`: `STATE.current`;
* `heap`: the live TCBs, by address (`none`: not allocated, or freed);
* `next_id`: the next thread id to hand out;
* `memory`: byte-addressed memory holding the thread stacks;
* `cpu`: the live execution context (the registers of the processor);
* `switches`: the calls of `grn_context_switch` made so far, each as the pair
  of TCBs whose `context` fields were passed as `from` and `to`. -/
structure floral_state where
  threads : List Ptr
  current : Option Ptr
  heap : Ptr → Option grn_thread
  next_id : Int
  memory : Nat → Nat
  cpu : grn_context
  switches : List (Ptr × Ptr)

/-- Initial global state `STATE = { .threads = NULL, .current = NULL }`: no
TCB exists yet. -/
def STATE (cpu : grn_context) (memory : Nat → Nat) : floral_state :=
  { threads := [], current := none, heap := fun _ => none, next_id := 0,
    memory := memory, cpu := cpu, switches := [] }

/-- Status of the TCB at `p`, when there is one. -/
def status_of (s : floral_state) (p : Ptr) : Option grn_status :=
  (s.heap p).map (fun t => t.status)

/-- Condition tag of the TCB at `p`, when there is one. -/
def condition_of (s : floral_state) (p : Ptr) : Option Int :=
  (s.heap p).map (fun t => t.condition)

/-- Thread id of the TCB at `p`, when there is one. -/
def id_of (s : floral_state) (p : Ptr) : Option Int :=
  (s.heap p).map (fun t => t.id)

/-! ## The ring helpers of `thread.c` -/

/-- Successor of `p` in the list `ring`, wrapping from the last element to
`hd`; `none` when `p` is not in the list. -/
def succ_of (hd : Ptr) : List Ptr → Ptr → Option Ptr
  | [], _ => none
  | x :: rest, p =>
    if x = p then
      match rest with
      | [] => some hd
      | y :: _ => some y
    else succ_of hd rest p

/-- Modelled from the spec: `next_thread` of `thread.c` is missing.  The ring
linkage is part of the TCB, so the TCB at `thread` is read; from it the
traversal goes to the next TCB of the ring and wraps around at the end, so
that starting anywhere every other TCB is visited once before the start is
met again. -/
def next_thread (s : floral_state) (thread : Ptr) : Option Ptr :=
  match s.heap thread with
  | none => none
  | some _ =>
    match s.threads with
    | [] => none
    | hd :: _ => succ_of hd s.threads thread

/-- Modelled from the spec: `remove_thread` of `thread.c` is missing.  It
takes the TCB out of its position in the ring. -/
def remove_thread (thread : Ptr) (s : floral_state) : floral_state :=
  { s with threads := s.threads.erase thread }

/-- Modelled from the spec: `add_thread` of `thread.c` is missing.  It
inserts the TCB at the traversal tail of the ring ("move to back"). -/
def add_thread (thread : Ptr) (s : floral_state) : floral_state :=
  { s with threads := s.threads ++ [thread] }

/-- Modelled from the spec: `grn_new_thread` of `thread.c` is missing.  It
allocates a TCB (at address `p`, which the allocator picks among the
addresses that hold no live TCB), gives it the next id, status `INIT`,
condition tag 0 and, when `alloc_stack` is set, a stack block of its own (at
address `stk`), and inserts it into the ring.  It returns the new TCB. -/
def grn_new_thread (alloc_stack : Bool) (p : Ptr) (stk : Nat) (s : floral_state) :
    Option (Ptr × floral_state) :=
  match s.heap p with
  | some _ => none
  | none =>
    let t : grn_thread :=
      { id := s.next_id, status := INIT, condition := 0, context := { rsp := 0 },
        stack := if alloc_stack then some stk else none }
    some (p, add_thread p
      { s with heap := fun q => if q = p then some t else s.heap q,
               next_id := s.next_id + 1 })

/-- Modelled from the spec: `grn_destroy_thread` of `thread.c` is missing.
It removes the TCB from the ring and frees its stack and the TCB itself. -/
def grn_destroy_thread (thread : Ptr) (s : floral_state) : Option floral_state :=
  match s.heap thread with
  | none => none
  | some _ =>
    some { remove_thread thread s with
           heap := fun q => if q = thread then none else s.heap q }

/-- Modelled from the spec: the assembly of `grn_context_switch` is missing.
`switch(from, to)` preserves the live context into `from` and then loads
`to`; `from` and `to` are given as the TCBs whose `context` field is passed.
The call is recorded in `switches`. -/
def grn_context_switch (from_thread to_thread : Ptr) (s : floral_state) :
    Option floral_state :=
  match s.heap from_thread with
  | none => none
  | some f =>
    let s1 : floral_state :=
      { s with heap := fun q => if q = from_thread then some { f with context := s.cpu }
                                else s.heap q,
               switches := s.switches ++ [(from_thread, to_thread)] }
    match s1.heap to_thread with
    | none => none
    | some t => some { s1 with cpu := t.context }

/-- The assignment `thread->status = st`. -/
def set_status (thread : Ptr) (st : grn_status) (s : floral_state) : Option floral_state :=
  match s.heap thread with
  | none => none
  | some t =>
    some { s with heap := fun q => if q = thread then some { t with status := st }
                                   else s.heap q }

/-! ## `main.c` -/

/-- The function `grn_current`. -/
def grn_current (s : floral_state) : Option Ptr := s.current

/-- The function `grn_init`. -/
def grn_init (p : Ptr) (s : floral_state) : Option floral_state := do
  let (t, s1) ← grn_new_thread false p 0 s
  let s2 : floral_state := { s1 with current := some t }
  let c ← s2.current
  set_status c RUNNING s2

/-- The search loop shared by `grn_yield` and `grn_wait`:
```
while ((cur_thread = next_thread(cur_thread)) != STATE.current) {
  if (pred(cur_thread)) nxt_thread = cur_thread;
}
```
`fuel` bounds the number of iterations; the result is the final value of
`nxt_thread`. -/
def scan_ring (pred : grn_thread → Bool) (s : floral_state) :
    Nat → Ptr → Option Ptr → Option (Option Ptr)
  | 0, _, _ => none
  | fuel + 1, cur_thread, nxt_thread =>
    match next_thread s cur_thread with
    | none => none
    | some c =>
      if some c = s.current then some nxt_thread
      else
        match s.heap c with
        | none => none
        | some t => scan_ring pred s fuel c (if pred t then some c else nxt_thread)

/-- Lines 162-178 of `grn_yield`: the choice of `nxt_thread`. -/
def yield_pick (condition : Int) (s : floral_state) : Option (Option Ptr) := do
  let nxt_thread ←
    if condition ≠ 0 then do
      let cur_thread ← grn_current s
      scan_ring (fun t => decide (t.condition = condition ∧ t.status = READY)) s
        s.threads.length cur_thread none
    else pure none
  if nxt_thread = none then do
    let cur_thread ← grn_current s
    scan_ring (fun t => decide (t.status = READY)) s s.threads.length cur_thread none
  else pure nxt_thread

/-- Lines 180-182 of `grn_yield`, the same as lines 119-121 of `grn_wait`:
the current thread is marked READY if it was RUNNING. -/
def demote_current (s : floral_state) : Option floral_state := do
  let cur ← s.current
  let t ← s.heap cur
  if t.status = RUNNING then set_status cur READY s else pure s

/-- The function `grn_yield`: the return value and the state it leaves. -/
def grn_yield (condition : Int) (s : floral_state) : Option (Int × floral_state) := do
  let nxt_thread ← yield_pick condition s
  let s1 ← demote_current s
  match nxt_thread with
  | some n =>
    let s2 ← set_status n RUNNING s1
    let s3 := add_thread n (remove_thread n s2)
    let s4 : floral_state := { s3 with current := some n }
    let from_thread ← s4.current
    let s5 ← grn_context_switch from_thread n s4
    pure (0, s5)
  | none => pure (-1, s1)

/-- Lines 107-116 of `grn_wait`: the choice of `nxt_thread`. -/
def wait_pick (condition : Int) (s : floral_state) : Option (Option Ptr) :=
  if condition ≠ 0 then do
    let cur_thread ← grn_current s
    scan_ring (fun t => decide (t.status = READY)) s s.threads.length cur_thread none
  else pure none

/-- The function `grn_wait`: the return value and the state it leaves. -/
def grn_wait (condition : Int) (s : floral_state) : Option (Int × floral_state) := do
  let nxt_thread ← wait_pick condition s
  let s1 ← demote_current s
  match nxt_thread with
  | some n =>
    let s2 ← set_status n RUNNING s1
    let s3 : floral_state := { s2 with current := some n }
    let s4 := add_thread n (remove_thread n s3)
    let from_thread ← s4.current
    let s5 ← grn_context_switch from_thread n s4
    pure (0, s5)
  | none => pure (-1, s1)

/-- The call `memcpy(dst, &v, 8)` for a 64-bit value `v`: the eight bytes of
`v`, least significant first, are written at `dst`. -/
def memcpy64 (dst v : Nat) (m : Nat → Nat) : Nat → Nat :=
  fun a => if dst ≤ a ∧ a < dst + 8 then (v / 256 ^ (a - dst)) % 256 else m a

/-- The assignment `thread->context.rsp = v`. -/
def set_rsp (thread : Ptr) (v : Nat) (s : floral_state) : Option floral_state :=
  match s.heap thread with
  | none => none
  | some t =>
    some { s with heap := fun q => if q = thread then some { t with context := { rsp := v } }
                                   else s.heap q }

/-- Lines 51-66 of `grn_spawn`, up to and including the context switch into
the new thread.  `STACK_SIZE` (of `thread.h`) and the address `start_thread`
of the trampoline are parameters, `fn` is the address of the thread body,
`p` and `stk` are the addresses the allocator returns for the TCB and for its
stack. -/
def grn_spawn_begin (STACK_SIZE start_thread fn : Nat) (p : Ptr) (stk : Nat)
    (s : floral_state) : Option (Ptr × floral_state) := do
  let (New_Thread, s1) ← grn_new_thread true p stk s
  let s2 ← set_status New_Thread READY s1
  let t ← s2.heap New_Thread
  let stack ← t.stack
  let stack_p := stack + STACK_SIZE
  let stack_p := stack_p - 8
  let s3 : floral_state := { s2 with memory := memcpy64 stack_p fn s2.memory }
  let stack_p := stack_p - 8
  let s4 : floral_state := { s3 with memory := memcpy64 stack_p start_thread s3.memory }
  let s5 ← set_rsp New_Thread stack_p s4
  let cur ← s5.current
  let s6 ← grn_context_switch cur New_Thread s5
  pure (New_Thread, s6)

/-- The conversion `(int) x` of a 64-bit thread id. -/
def to_int (x : Int) : Int := (x + 2 ^ 31) % 2 ^ 32 - 2 ^ 31

/-- Lines 67-68 of `grn_spawn`, the part that runs once the context saved at
line 66 is loaded again: `grn_yield(0); return (int) New_Thread->id;`. -/
def grn_spawn_resume (New_Thread : Ptr) (s : floral_state) : Option (Int × floral_state) := do
  let (_, s1) ← grn_yield 0 s
  let t ← s1.heap New_Thread
  pure (to_int t.id, s1)

/-- The loop of `grn_gc`:
```
while ((cur = next_thread(cur)) != STATE.current) {
  if (cur->status == ZOMBIE) grn_destroy_thread(cur);
}
```
`fuel` bounds the number of iterations. -/
def gc_loop : Nat → Ptr → floral_state → Option floral_state
  | 0, _, _ => none
  | fuel + 1, cur, s =>
    match next_thread s cur with
    | none => none
    | some c =>
      if some c = s.current then some s
      else
        match s.heap c with
        | none => none
        | some t =>
          if t.status = ZOMBIE then
            match grn_destroy_thread c s with
            | none => none
            | some s1 => gc_loop fuel c s1
          else gc_loop fuel c s

/-- The function `grn_gc`. -/
def grn_gc (s : floral_state) : Option floral_state := do
  let cur ← grn_current s
  gc_loop s.threads.length cur s

/-- What a run of `grn_join` bounded to a number of loop iterations gives:
the function returned `ret` in state `s`; or a dead pointer was dereferenced;
or the bound was reached with the loop still running, in state `s`. -/
inductive join_result where
  | returned (ret : Int) (s : floral_state)
  | fault
  | running (s : floral_state)

/-- The function `grn_join`: `while (!grn_yield(0)); return 0;`, run for at
most `fuel` iterations of the loop. -/
def grn_join : Nat → floral_state → join_result
  | 0, s => join_result.running s
  | fuel + 1, s =>
    match grn_yield 0 s with
    | none => join_result.fault
    | some (r, s1) => if r = 0 then grn_join fuel s1 else join_result.returned 0 s1

/-- What a call of `grn_exit` gives: the process was ended by `exit(status)`;
or the function came back to its caller in state `s`; or a dead pointer was
dereferenced. -/
inductive exit_result where
  | process_exit (status : Int)
  | returned (s : floral_state)
  | fault

/-- The function `grn_exit`. -/
def grn_exit (s : floral_state) : exit_result :=
  match s.current with
  | none => exit_result.fault
  | some cur =>
    match s.heap cur with
    | none => exit_result.fault
    | some t =>
      if t.id = 0 then exit_result.process_exit 0
      else
        match set_status cur ZOMBIE s with
        | none => exit_result.fault
        | some s1 =>
          match grn_yield 0 s1 with
          | none => exit_result.fault
          | some (_, s2) => exit_result.returned s2

/-! ## Well-formed states and the ring traversal -/

/-- The data-structure invariant of the scheduler state: the ring lists each
TCB once, every TCB of the ring is live, and `current` is a TCB of the ring. -/
def wf (s : floral_state) : Prop :=
  s.threads.Nodup ∧ (∀ p ∈ s.threads, (s.heap p).isSome = true) ∧
    ∃ c, s.current = some c ∧ c ∈ s.threads

/-- The TCBs a traversal of `ring` meets that starts after `p` and stops when
it is back at `p`, in the order it meets them. -/
def ring_after (ring : List Ptr) (p : Ptr) : List Ptr :=
  (ring.dropWhile (fun x => decide (x ≠ p))).tail ++ ring.takeWhile (fun x => decide (x ≠ p))

/-- The last TCB of `l` that satisfies `pred`, or `init` when there is none. -/
def last_match (pred : grn_thread → Bool) (s : floral_state) (l : List Ptr)
    (init : Option Ptr) : Option Ptr :=
  l.foldl (fun acc p =>
    match s.heap p with
    | some t => if pred t then some p else acc
    | none => acc) init

/-- The choice `grn_yield` makes on a well-formed state, as a function of the
traversal order: the last READY thread with the signalled tag, if the
condition is nonzero and there is one, else the last READY thread. -/
def yield_choice (condition : Int) (s : floral_state) (cur : Ptr) : Option Ptr :=
  match (if condition ≠ 0 then
      last_match (fun t => decide (t.condition = condition ∧ t.status = READY)) s
        (ring_after s.threads cur) none
    else none) with
  | some n => some n
  | none => last_match (fun t => decide (t.status = READY)) s (ring_after s.threads cur) none

/-- The state after lines 180-182 of `grn_yield`, when `current` is the TCB
`tc` at `cur`. -/
def demoted (s : floral_state) (cur : Ptr) (tc : grn_thread) : floral_state :=
  { s with heap := fun q =>
      if q = cur then some { tc with status := if tc.status = RUNNING then READY else tc.status }
      else s.heap q }

/-- The state after a `grn_yield` or `grn_wait` that chose the TCB `tn` at
`n`, when `current` was the TCB `tc` at `cur`. -/
def switched (s : floral_state) (cur n : Ptr) (tc tn : grn_thread) : floral_state :=
  { threads := s.threads.erase n ++ [n],
    current := some n,
    heap := fun q =>
      if q = n then some { tn with status := RUNNING, context := s.cpu }
      else if q = cur then
        some { tc with status := if tc.status = RUNNING then READY else tc.status }
      else s.heap q,
    next_id := s.next_id,
    memory := s.memory,
    cpu := s.cpu,
    switches := s.switches ++ [(n, n)] }

/-! ## Concrete states -/

/-- A TCB with the given id, status and condition tag (no stack, context 0). -/
def tcb (id : Int) (st : grn_status) (condition : Int) : grn_thread :=
  { id := id, status := st, condition := condition, context := { rsp := 0 }, stack := none }

/-- The state `grn_init` leaves when the allocator puts the bootstrap TCB at
address 1: the ring holds that TCB alone, RUNNING and current. -/
def boot_only : floral_state :=
  { threads := [1], current := some 1,
    heap := fun q => if q = 1 then some (tcb 0 RUNNING 0) else none,
    next_id := 1, memory := fun _ => 0, cpu := { rsp := 0 }, switches := [] }

/-- A ring of three TCBs in the order 1, 2, 3: the bootstrap thread at 1 is
RUNNING and current, the threads at 2 and 3 are READY; the thread at 2 has
condition tag 7. -/
def three_threads : floral_state :=
  { threads := [1, 2, 3], current := some 1,
    heap := fun q =>
      if q = 1 then some (tcb 0 RUNNING 0)
      else if q = 2 then some (tcb 1 READY 7)
      else if q = 3 then some (tcb 2 READY 0)
      else none,
    next_id := 3, memory := fun _ => 0, cpu := { rsp := 0 }, switches := [] }

/-- Two threads in the ring order 1, 2: the bootstrap thread at 1 is RUNNING
and current, its live stack pointer is 500; the thread at 2 is READY and was
suspended with stack pointer 900. -/
def two_threads : floral_state :=
  { threads := [1, 2], current := some 1,
    heap := fun q =>
      if q = 1 then
        some { id := 0, status := RUNNING, condition := 0, context := { rsp := 0 },
               stack := none }
      else if q = 2 then
        some { id := 1, status := READY, condition := 0, context := { rsp := 900 },
               stack := some 1000 }
      else none,
    next_id := 2, memory := fun _ => 0, cpu := { rsp := 500 }, switches := [] }

/-- Saved stack pointer of the TCB at `p`, when there is one. -/
def rsp_of (s : floral_state) (p : Ptr) : Option Nat :=
  (s.heap p).map (fun t => t.context.rsp)

/-- Three threads in the ring order 2, 3, 1: the bootstrap thread at 1 is
RUNNING and current; the threads at 2 and 3 are READY and both have condition
tag 7.  A traversal from `current` meets 2 first, then 3. -/
def two_waiters : floral_state :=
  { threads := [2, 3, 1], current := some 1,
    heap := fun q =>
      if q = 1 then some (tcb 0 RUNNING 0)
      else if q = 2 then some (tcb 1 READY 7)
      else if q = 3 then some (tcb 2 READY 7)
      else none,
    next_id := 3, memory := fun _ => 0, cpu := { rsp := 0 }, switches := [] }

/-- The state after `grn_init` and lines 51-66 of two calls of `grn_spawn`
(TCBs at 1, 2, 3; stacks of 4096 bytes at 10000 and 20000). -/
def spawned_two : Option floral_state := do
  let s0 ← grn_init 1 (STATE { rsp := 0 } (fun _ => 0))
  let (_, s1) ← grn_spawn_begin 4096 555 666 2 10000 s0
  let (_, s2) ← grn_spawn_begin 4096 555 667 3 20000 s1
  pure s2

/-- What is looked at in a state: the ring, `current`, and the status and
condition tag of the TCBs at 1, 2 and 3. -/
def observe (s : floral_state) :
    List Ptr × Option Ptr × List (Option grn_status) × List (Option Int) :=
  (s.threads, s.current, [status_of s 1, status_of s 2, status_of s 3],
    [condition_of s 1, condition_of s 2, condition_of s 3])

/-- The 64-bit value stored at address `a`, least significant byte first. -/
def load64 (m : Nat → Nat) (a : Nat) : Nat :=
  (List.range 8).foldr (fun i acc => m (a + i) + 256 * acc) 0

/-- The exit status, when the call ended the process. -/
def exit_status : exit_result → Option Int
  | exit_result.process_exit st => some st
  | _ => none

/-- The state after `grn_init` and lines 51-66 of `grn_spawn(f)`, the context
switch into the new thread included: TCBs at 1 and 2, a stack of 4096 bytes at
10000, the trampoline at address 555 and `f` at address 666. -/
def spawned_one : Option floral_state := do
  let s0 ← grn_init 1 (STATE { rsp := 0 } (fun _ => 0))
  let (_, s1) ← grn_spawn_begin 4096 555 666 2 10000 s0
  pure s1

/-- Two threads in the ring order 2, 1: the bootstrap thread at 1 is RUNNING
and current, the thread at 2 has exited and is ZOMBIE. -/
def with_zombie : floral_state :=
  { threads := [2, 1], current := some 1,
    heap := fun q =>
      if q = 1 then some (tcb 0 RUNNING 0)
      else if q = 2 then some (tcb 1 ZOMBIE 0)
      else none,
    next_id := 2, memory := fun _ => 0, cpu := { rsp := 0 }, switches := [] }

/-! ## Reachable states -/

/-- One call into the scheduler, as a transition of the state: the first part
of `grn_spawn` (up to its context switch), `grn_yield` (the second part of
`grn_spawn` is a `grn_yield(0)`), `grn_wait`, `grn_exit` on a thread that is
not the bootstrap thread, `grn_gc`. -/
inductive sched_step : floral_state → floral_state → Prop where
  | spawn (s s1 : floral_state) (STACK_SIZE start_thread fn : Nat) (p : Ptr) (stk : Nat)
      (n : Ptr) :
      grn_spawn_begin STACK_SIZE start_thread fn p stk s = some (n, s1) → sched_step s s1
  | yield (s s1 : floral_state) (condition ret : Int) :
      grn_yield condition s = some (ret, s1) → sched_step s s1
  | wait (s s1 : floral_state) (condition ret : Int) :
      grn_wait condition s = some (ret, s1) → sched_step s s1
  | exit (s s1 : floral_state) :
      grn_exit s = exit_result.returned s1 → sched_step s s1
  | gc (s s1 : floral_state) :
      grn_gc s = some s1 → sched_step s s1

/-- The states reachable from `grn_init` by calls into the scheduler. -/
inductive reachable : floral_state → Prop where
  | init (cpu : grn_context) (memory : Nat → Nat) (p : Ptr) (s : floral_state) :
      grn_init p (STATE cpu memory) = some s → reachable s
  | step (s s1 : floral_state) : reachable s → sched_step s s1 → reachable s1

/-- The invariant on the statuses: the ring is well formed and a TCB of the
ring that is RUNNING is the one `current` points to. -/
def running_is_current (s : floral_state) : Prop :=
  wf s ∧ ∀ p ∈ s.threads, status_of s p = some RUNNING → s.current = some p

/-- The states in which `grn_join` finds a thread to yield to and is itself
schedulable: the ring is well formed, the caller is RUNNING or READY, and
some other thread of the ring is READY. -/
def can_yield (s : floral_state) : Prop :=
  wf s ∧ ∃ cur tc, s.current = some cur ∧ s.heap cur = some tc ∧
    (tc.status = RUNNING ∨ tc.status = READY) ∧
    ∃ p ∈ s.threads, p ≠ cur ∧ status_of s p = some READY

/-- What a call that returned `ret` and left `s1` did to the ring of `s`: the
ring holds the same TCBs; after a failure (-1) it is unchanged; after a
success (0) the thread `n` that is now `current` was taken out of its place
and put at the traversal tail, the other TCBs keeping their order. -/
def ring_moved_to_tail (s : floral_state) (ret : Int) (s1 : floral_state) : Prop :=
  (ret = 0 ∨ ret = -1) ∧
  (∀ p, p ∈ s1.threads ↔ p ∈ s.threads) ∧
  (ret = -1 → s1.threads = s.threads) ∧
  (ret = 0 → ∃ n, s1.current = some n ∧ n ∈ s.threads ∧
    s1.threads = s.threads.erase n ++ [n] ∧
    s1.threads.filter (fun q => decide (q ≠ n)) = s.threads.filter (fun q => decide (q ≠ n)))

/-- A step from `s` to `s1` keeps the zombies: a TCB that is ZOMBIE in `s` is
ZOMBIE in `s1`, and it is `current` in `s1` only if it was `current` in `s`. -/
def zombies_kept (s s1 : floral_state) : Prop :=
  ∀ p, status_of s p = some ZOMBIE →
    status_of s1 p = some ZOMBIE ∧ (s1.current = some p → s.current = some p)

/-- The TCB `n` is the last element of `l` that satisfies `P`. -/
def last_in (P : Ptr → Prop) (l : List Ptr) (n : Ptr) : Prop :=
  ∃ A B, l = A ++ n :: B ∧ P n ∧ ∀ q ∈ B, ¬ P q

/-- The TCB at `q` is READY. -/
def ready_in (s : floral_state) (q : Ptr) : Prop :=
  status_of s q = some READY

/-- The TCB at `q` is READY and its condition tag is `condition`. -/
def signalled_in (condition : Int) (s : floral_state) (q : Ptr) : Prop :=
  status_of s q = some READY ∧ condition_of s q = some condition

/-- Lines 51-62 of `grn_spawn`: the new TCB is allocated and primed; the
context switch of line 66 is still to come.  The parameters are those of
`grn_spawn_begin`. -/
def grn_spawn_prime (STACK_SIZE start_thread fn : Nat) (p : Ptr) (stk : Nat)
    (s : floral_state) : Option (Ptr × floral_state) := do
  let (New_Thread, s1) ← grn_new_thread true p stk s
  let s2 ← set_status New_Thread READY s1
  let t ← s2.heap New_Thread
  let stack ← t.stack
  let stack_p := stack + STACK_SIZE
  let stack_p := stack_p - 8
  let s3 : floral_state := { s2 with memory := memcpy64 stack_p fn s2.memory }
  let stack_p := stack_p - 8
  let s4 : floral_state := { s3 with memory := memcpy64 stack_p start_thread s3.memory }
  let s5 ← set_rsp New_Thread stack_p s4
  pure (New_Thread, s5)

/-- The invariant on the bootstrap thread: some TCB of the ring has id 0, and
every TCB of the ring with id 0 is RUNNING or READY. -/
def bootstrap_alive (s : floral_state) : Prop :=
  (∃ b ∈ s.threads, id_of s b = some 0) ∧
  ∀ p ∈ s.threads, id_of s p = some 0 →
    status_of s p = some RUNNING ∨ status_of s p = some READY

/-- The TCBs the loop of `grn_gc` passes to `grn_destroy_thread`, in order,
until the loop ends or reads a dead pointer (same bound as `gc_loop`). -/
def gc_destroyed : Nat → Ptr → floral_state → List Ptr
  | 0, _, _ => []
  | fuel + 1, cur, s =>
    match next_thread s cur with
    | none => []
    | some c =>
      if some c = s.current then []
      else
        match s.heap c with
        | none => []
        | some t =>
          if t.status = ZOMBIE then
            match grn_destroy_thread c s with
            | none => []
            | some s1 => c :: gc_destroyed fuel c s1
          else gc_destroyed fuel c s

/-- The state in which `grn_exit` came back to its caller, when it did. -/
def exit_returned : exit_result → Option floral_state
  | exit_result.returned s => some s
  | _ => none

/-- The state after `grn_init`, lines 51-66 of `grn_spawn(f)` and a
`grn_yield(0)`: the spawned thread (TCB at 2, id 1) is RUNNING and current,
the bootstrap thread (TCB at 1) is READY. -/
def spawned_running : Option floral_state := do
  let s1 ← spawned_one
  let (_, s2) ← grn_yield 0 s1
  pure s2

/-! ## Theorems: the search loop -/

theorem succ_of_mid (hd x y : Ptr) (A B : List Ptr) (hx : x ∉ A) :
    succ_of hd (A ++ x :: y :: B) x = some y := by
  induction A with
  | nil => simp [succ_of]
  | cons a A ih =>
    have h1 : a ≠ x := fun h => hx (by simp [h])
    have h2 : x ∉ A := fun h => hx (by simp [h])
    simp [succ_of, h1, ih h2]

theorem succ_of_last (hd x : Ptr) (A : List Ptr) (hx : x ∉ A) :
    succ_of hd (A ++ [x]) x = some hd := by
  induction A with
  | nil => simp [succ_of]
  | cons a A ih =>
    have h1 : a ≠ x := fun h => hx (by simp [h])
    have h2 : x ∉ A := fun h => hx (by simp [h])
    simp [succ_of, h1, ih h2]

theorem dropWhile_ne_split (pre post : List Ptr) (cur : Ptr) (h : cur ∉ pre) :
    (pre ++ cur :: post).dropWhile (fun x => decide (x ≠ cur)) = cur :: post := by
  induction pre with
  | nil => simp [List.dropWhile]
  | cons a A ih =>
    have h1 : a ≠ cur := fun h' => h (by simp [h'])
    have h2 : cur ∉ A := fun h' => h (by simp [h'])
    simp [List.dropWhile, h1]
    simpa using ih h2

theorem takeWhile_ne_split (pre post : List Ptr) (cur : Ptr) (h : cur ∉ pre) :
    (pre ++ cur :: post).takeWhile (fun x => decide (x ≠ cur)) = pre := by
  induction pre with
  | nil => simp [List.takeWhile]
  | cons a A ih =>
    have h1 : a ≠ cur := fun h' => h (by simp [h'])
    have h2 : cur ∉ A := fun h' => h (by simp [h'])
    simp [List.takeWhile, h1]
    simpa using ih h2

theorem ring_after_split (pre post : List Ptr) (cur : Ptr) (h : cur ∉ pre) :
    ring_after (pre ++ cur :: post) cur = post ++ pre := by
  unfold ring_after
  rw [dropWhile_ne_split pre post cur h, takeWhile_ne_split pre post cur h]; rfl

theorem mem_ring_after (ring : List Ptr) (cur p : Ptr) (hn : ring.Nodup) (hc : cur ∈ ring) :
    p ∈ ring_after ring cur ↔ p ∈ ring ∧ p ≠ cur := by
  obtain ⟨pre, post, rfl⟩ := List.append_of_mem hc
  have hpre : cur ∉ pre := by
    intro h
    have := List.nodup_append.1 hn
    exact this.2.2 h (by simp)
  have hpost : cur ∉ post := by
    have := (List.nodup_append.1 hn).2.1
    exact (List.nodup_cons.1 this).1
  rw [ring_after_split pre post cur hpre]
  simp only [List.mem_append, List.mem_cons]
  constructor
  · rintro (h | h)
    · exact ⟨Or.inr (Or.inr h), fun e => hpost (e ▸ h)⟩
    · exact ⟨Or.inl h, fun e => hpre (e ▸ h)⟩
  · rintro ⟨h | h | h, hne⟩
    · exact Or.inr h
    · exact absurd h hne
    · exact Or.inl h

theorem next_thread_mid (s : floral_state) (A B : List Ptr) (c y : Ptr) (t : grn_thread)
    (hc : s.heap c = some t) (hring : s.threads = A ++ c :: y :: B) (hA : c ∉ A) :
    next_thread s c = some y := by
  unfold next_thread
  rw [hc]
  cases h : s.threads with
  | nil => rw [hring] at h; simp at h
  | cons hd rest =>
    simp only
    rw [← h, hring]
    exact succ_of_mid hd c y A B hA

theorem next_thread_last (s : floral_state) (A : List Ptr) (c hd : Ptr) (rest : List Ptr)
    (t : grn_thread) (hc : s.heap c = some t) (hring : s.threads = A ++ [c])
    (hhd : s.threads = hd :: rest) (hA : c ∉ A) :
    next_thread s c = some hd := by
  unfold next_thread
  rw [hc, hhd]
  simp only
  rw [← hhd, hring]
  exact succ_of_last hd c A hA

theorem last_match_cons (pred : grn_thread → Bool) (s : floral_state) (y : Ptr)
    (l : List Ptr) (acc : Option Ptr) (t : grn_thread) (h : s.heap y = some t) :
    last_match pred s (y :: l) acc = last_match pred s l (if pred t then some y else acc) := by
  simp [last_match, h]

theorem scan_ring_pre (pred : grn_thread → Bool) (s : floral_state) (cur : Ptr)
    (pre post : List Ptr) (hring : s.threads = pre ++ cur :: post) (hn : s.threads.Nodup)
    (hl : ∀ p ∈ s.threads, (s.heap p).isSome = true) (hcur : s.current = some cur) :
    ∀ (B A : List Ptr) (c : Ptr) (acc : Option Ptr) (k : Nat), pre = A ++ c :: B →
      scan_ring pred s (k + B.length + 1) c acc = some (last_match pred s B acc) := by
  intro B
  induction B with
  | nil =>
    intro A c acc k hpre
    have hcmem : c ∈ s.threads := by rw [hring, hpre]; simp
    obtain ⟨t, ht⟩ := Option.isSome_iff_exists.1 (hl c hcmem)
    have hr : s.threads = A ++ c :: cur :: post := by rw [hring, hpre]; simp
    have hA : c ∉ A := by
      rw [hr] at hn
      intro h
      exact (List.nodup_append.1 hn).2.2 h (by simp)
    have hnext := next_thread_mid s A post c cur t ht hr hA
    show scan_ring pred s ((k + 0) + 1) c acc = _
    simp [scan_ring, hnext, hcur, last_match]
  | cons y B ih =>
    intro A c acc k hpre
    have hcmem : c ∈ s.threads := by rw [hring, hpre]; simp
    obtain ⟨t, ht⟩ := Option.isSome_iff_exists.1 (hl c hcmem)
    have hymem : y ∈ s.threads := by rw [hring, hpre]; simp
    obtain ⟨ty, hty⟩ := Option.isSome_iff_exists.1 (hl y hymem)
    have hr : s.threads = A ++ c :: y :: (B ++ cur :: post) := by rw [hring, hpre]; simp
    have hA : c ∉ A := by
      rw [hr] at hn
      intro h
      exact (List.nodup_append.1 hn).2.2 h (by simp)
    have hycur : y ≠ cur := by
      rw [hring] at hn
      intro h
      have h1 : y ∈ pre := by rw [hpre]; simp
      exact (List.nodup_append.1 hn).2.2 h1 (by simp [h])
    have hnext := next_thread_mid s A (B ++ cur :: post) c y t ht hr hA
    have hpre2 : pre = (A ++ [c]) ++ y :: B := by rw [hpre]; simp
    have := ih (A ++ [c]) y (if pred ty then some y else acc) k hpre2
    rw [last_match_cons pred s y B acc ty hty, ← this]
    show scan_ring pred s ((k + B.length + 1) + 1) c acc = _
    simp [scan_ring, hnext, hcur, hycur, hty]

theorem scan_ring_post (pred : grn_thread → Bool) (s : floral_state) (cur : Ptr)
    (pre post : List Ptr) (hring : s.threads = pre ++ cur :: post) (hn : s.threads.Nodup)
    (hl : ∀ p ∈ s.threads, (s.heap p).isSome = true) (hcur : s.current = some cur) :
    ∀ (B A : List Ptr) (c : Ptr) (acc : Option Ptr) (k : Nat), cur :: post = A ++ c :: B →
      scan_ring pred s (k + pre.length + B.length + 1) c acc
        = some (last_match pred s (B ++ pre) acc) := by
  intro B
  induction B with
  | nil =>
    intro A c acc k hpost
    have hcmem : c ∈ s.threads := by rw [hring, hpost]; simp
    obtain ⟨t, ht⟩ := Option.isSome_iff_exists.1 (hl c hcmem)
    have hr : s.threads = (pre ++ A) ++ [c] := by rw [hring, hpost]; simp
    have hA : c ∉ pre ++ A := by
      rw [hr] at hn
      intro h
      exact (List.nodup_append.1 hn).2.2 h (by simp)
    cases pre with
    | nil =>
      have hhd : s.threads = cur :: post := by rw [hring]; simp
      have hnext := next_thread_last s ([] ++ A) c cur post t ht hr hhd hA
      show scan_ring pred s ((k + 0 + 0) + 1) c acc = _
      simp [scan_ring, hnext, hcur, last_match]
    | cons h pre1 =>
      have hhd : s.threads = h :: (pre1 ++ cur :: post) := by rw [hring]; simp
      have hnext := next_thread_last s (h :: pre1 ++ A) c h _ t ht hr hhd hA
      have hhmem : h ∈ s.threads := by rw [hhd]; simp
      obtain ⟨th, hth⟩ := Option.isSome_iff_exists.1 (hl h hhmem)
      have hhcur : h ≠ cur := by
        rw [hring] at hn
        intro e
        exact (List.nodup_append.1 hn).2.2 (List.mem_cons_self h pre1) (by simp [e])
      have := scan_ring_pre pred s cur (h :: pre1) post hring hn hl hcur pre1 [] h
        (if pred th then some h else acc) k (by simp)
      show scan_ring pred s ((k + pre1.length + 1) + 1) c acc = _
      simp only [List.nil_append]
      rw [last_match_cons pred s h pre1 acc th hth, ← this]
      simp [scan_ring, hnext, hcur, hhcur, hth]
  | cons y B ih =>
    intro A c acc k hpost
    have hcmem : c ∈ s.threads := by rw [hring, hpost]; simp
    obtain ⟨t, ht⟩ := Option.isSome_iff_exists.1 (hl c hcmem)
    have hymem : y ∈ s.threads := by rw [hring, hpost]; simp
    obtain ⟨ty, hty⟩ := Option.isSome_iff_exists.1 (hl y hymem)
    have hr : s.threads = (pre ++ A) ++ c :: y :: B := by rw [hring, hpost]; simp
    have hA : c ∉ pre ++ A := by
      rw [hr] at hn
      intro h
      exact (List.nodup_append.1 hn).2.2 h (by simp)
    have hycur : y ≠ cur := by
      have h2 : (cur :: post).Nodup := by
        rw [hring] at hn
        exact (List.nodup_append.1 hn).2.1
      rw [hpost] at h2
      intro e
      cases A with
      | nil =>
        simp at hpost
        rw [← hpost.1, e] at h2
        simp at h2
      | cons a A1 =>
        simp at hpost
        rw [← hpost.1, e] at h2
        simp at h2
    have hnext := next_thread_mid s (pre ++ A) B c y t ht hr hA
    have hpost2 : cur :: post = (A ++ [c]) ++ y :: B := by rw [hpost]; simp
    have := ih (A ++ [c]) y (if pred ty then some y else acc) k hpost2
    show scan_ring pred s ((k + pre.length + B.length + 1) + 1) c acc = _
    simp only [List.cons_append]
    rw [last_match_cons pred s y (B ++ pre) acc ty hty, ← this]
    simp [scan_ring, hnext, hcur, hycur, hty]

/-- On a well-formed state the search loop, run with the length of the ring as
its bound, ends, and its result is the last TCB satisfying `pred` among those
the traversal from `current` meets. -/
theorem scan_ring_eq (pred : grn_thread → Bool) (s : floral_state) (cur : Ptr)
    (hwf : wf s) (hcur : s.current = some cur) :
    scan_ring pred s s.threads.length cur none
      = some (last_match pred s (ring_after s.threads cur) none) := by
  obtain ⟨hn, hl, c, hc, hmem⟩ := hwf
  rw [hcur] at hc
  cases hc
  obtain ⟨pre, post, hring⟩ := List.append_of_mem hmem
  have hpre : cur ∉ pre := by
    intro h
    rw [hring] at hn
    exact (List.nodup_append.1 hn).2.2 h (by simp)
  have := scan_ring_post pred s cur pre post hring hn hl hcur post [] cur none 0 (by simp)
  rw [hring, ring_after_split pre post cur hpre, ← this, ← hring]
  congr 1
  rw [hring]; simp; omega

theorem last_match_init (pred : grn_thread → Bool) (s : floral_state) (l : List Ptr) :
    ∀ (init : Option Ptr) (n : Ptr), last_match pred s l init = some n →
      (n ∈ l ∧ ∃ t, s.heap n = some t ∧ pred t = true) ∨ init = some n := by
  induction l with
  | nil => intro init n h; right; simpa [last_match] using h
  | cons y l ih =>
    intro init n h
    cases hy : s.heap y with
    | none =>
      have h2 : last_match pred s l init = some n := by
        simpa [last_match, hy] using h
      rcases ih init n h2 with ⟨hm, hp⟩ | hi
      · left; exact ⟨List.mem_cons_of_mem _ hm, hp⟩
      · right; exact hi
    | some t =>
      rw [last_match_cons pred s y l init t hy] at h
      rcases ih _ n h with ⟨hm, hp⟩ | hi
      · left; exact ⟨List.mem_cons_of_mem _ hm, hp⟩
      · by_cases hpt : pred t = true
        · simp [hpt] at hi
          left; subst hi; exact ⟨List.mem_cons_self _ _, t, hy, hpt⟩
        · simp [hpt] at hi
          right; exact hi

theorem last_match_some (pred : grn_thread → Bool) (s : floral_state) (l : List Ptr)
    (n : Ptr) (h : last_match pred s l none = some n) :
    n ∈ l ∧ ∃ t, s.heap n = some t ∧ pred t = true := by
  rcases last_match_init pred s l none n h with h1 | h1
  · exact h1
  · cases h1

theorem last_match_isSome (pred : grn_thread → Bool) (s : floral_state) (l : List Ptr) :
    ∀ (init : Option Ptr), init.isSome = true → (last_match pred s l init).isSome = true := by
  induction l with
  | nil => intro init h; simpa [last_match] using h
  | cons y l ih =>
    intro init h
    cases hy : s.heap y with
    | none =>
      have : last_match pred s (y :: l) init = last_match pred s l init := by
        simp [last_match, hy]
      rw [this]; exact ih init h
    | some t =>
      rw [last_match_cons pred s y l init t hy]
      apply ih
      by_cases hpt : pred t = true
      · simp [hpt]
      · simpa [hpt] using h

theorem last_match_found (pred : grn_thread → Bool) (s : floral_state) (l : List Ptr) :
    ∀ (init : Option Ptr) (p : Ptr) (t : grn_thread), p ∈ l → s.heap p = some t →
      pred t = true → (last_match pred s l init).isSome = true := by
  induction l with
  | nil => intro init p t h; simp at h
  | cons y l ih =>
    intro init p t hp ht hpt
    rcases List.mem_cons.1 hp with rfl | hp
    · rw [last_match_cons pred s p l init t ht]
      apply last_match_isSome
      simp [hpt]
    · cases hy : s.heap y with
      | none =>
        have : last_match pred s (y :: l) init = last_match pred s l init := by
          simp [last_match, hy]
        rw [this]; exact ih init p t hp ht hpt
      | some ty =>
        rw [last_match_cons pred s y l init ty hy]
        exact ih _ p t hp ht hpt

theorem last_match_none (pred : grn_thread → Bool) (s : floral_state) (l : List Ptr)
    (h : ∀ p ∈ l, ∀ t, s.heap p = some t → pred t = false) :
    last_match pred s l none = none := by
  cases hm : last_match pred s l none with
  | none => rfl
  | some n =>
    obtain ⟨hn, t, ht, hpt⟩ := last_match_some pred s l n hm
    rw [h n hn t ht] at hpt
    cases hpt

theorem yield_pick_eq (condition : Int) (s : floral_state) (cur : Ptr) (hwf : wf s)
    (hcur : s.current = some cur) :
    yield_pick condition s = some (yield_choice condition s cur) := by
  unfold yield_pick yield_choice grn_current
  by_cases hc : condition = 0
  · simp [hc, hcur, scan_ring_eq _ s cur hwf hcur]
  · simp only [hc, ne_eq, not_false_eq_true, if_true, hcur, Option.bind_eq_bind, Option.some_bind,
      scan_ring_eq _ s cur hwf hcur]
    cases h : last_match (fun t => decide (t.condition = condition ∧ t.status = READY)) s
        (ring_after s.threads cur) none with
    | none => simp
    | some n => simp

theorem wait_pick_eq (condition : Int) (s : floral_state) (cur : Ptr) (hwf : wf s)
    (hcur : s.current = some cur) :
    wait_pick condition s = some (if condition ≠ 0 then
      last_match (fun t => decide (t.status = READY)) s (ring_after s.threads cur) none
      else none) := by
  unfold wait_pick grn_current
  by_cases hc : condition = 0
  · simp [hc]
  · simp [hc, hcur, scan_ring_eq _ s cur hwf hcur]

theorem demote_current_eq (s : floral_state) (cur : Ptr) (tc : grn_thread)
    (hcur : s.current = some cur) (hc : s.heap cur = some tc) :
    demote_current s = some (demoted s cur tc) := by
  unfold demote_current demoted
  by_cases hr : tc.status = RUNNING
  · simp [hcur, hc, hr, set_status]
  · simp only [hcur, hc, hr, Option.bind_eq_bind, Option.some_bind, if_false, Option.pure_def,
      Option.some.injEq]
    cases s with
    | mk threads current heap next_id memory cpu switches =>
      simp only [floral_state.mk.injEq, true_and, and_true]
      refine ⟨hcur, ?_⟩
      funext q
      by_cases hq : q = cur
      · subst hq; simpa using hc
      · simp [hq]

theorem grn_yield_fail_eq (condition : Int) (s : floral_state) (cur : Ptr) (tc : grn_thread)
    (hwf : wf s) (hcur : s.current = some cur) (hc : s.heap cur = some tc)
    (hpick : yield_choice condition s cur = none) :
    grn_yield condition s = some (-1, demoted s cur tc) := by
  unfold grn_yield
  rw [yield_pick_eq condition s cur hwf hcur, hpick, demote_current_eq s cur tc hcur hc]
  rfl

theorem grn_yield_ok_eq (condition : Int) (s : floral_state) (cur n : Ptr) (tc tn : grn_thread)
    (hwf : wf s) (hcur : s.current = some cur) (hc : s.heap cur = some tc)
    (hpick : yield_choice condition s cur = some n) (hn : s.heap n = some tn)
    (hne : n ≠ cur) :
    grn_yield condition s = some (0, switched s cur n tc tn) := by
  unfold grn_yield
  rw [yield_pick_eq condition s cur hwf hcur, hpick, demote_current_eq s cur tc hcur hc]
  simp only [Option.bind_eq_bind, Option.some_bind, set_status, demoted, hne, if_false, hn,
    add_thread, remove_thread, grn_context_switch, if_true, Option.pure_def, switched,
    Option.some.injEq, Prod.mk.injEq, true_and, floral_state.mk.injEq, and_true]
  funext q
  by_cases h1 : q = n
  · simp [h1]
  · simp [h1]

theorem yield_choice_some (condition : Int) (s : floral_state) (cur n : Ptr) (hwf : wf s)
    (hcur : s.current = some cur) (h : yield_choice condition s cur = some n) :
    n ∈ s.threads ∧ n ≠ cur ∧ ∃ tn, s.heap n = some tn ∧ tn.status = READY := by
  have hmem : cur ∈ s.threads := by
    obtain ⟨_, _, c, hc, hm⟩ := hwf
    rw [hcur] at hc; cases hc; exact hm
  unfold yield_choice at h
  split at h
  · rename_i m hm
    cases h
    split at hm
    · obtain ⟨h1, t, ht, hp⟩ := last_match_some _ s _ n hm
      rw [mem_ring_after s.threads cur n hwf.1 hmem] at h1
      simp at hp
      exact ⟨h1.1, h1.2, t, ht, hp.2⟩
    · cases hm
  · obtain ⟨h1, t, ht, hp⟩ := last_match_some _ s _ n h
    rw [mem_ring_after s.threads cur n hwf.1 hmem] at h1
    simp at hp
    exact ⟨h1.1, h1.2, t, ht, hp⟩

theorem yield_choice_isSome (condition : Int) (s : floral_state) (cur p : Ptr) (t : grn_thread)
    (hwf : wf s) (hcur : s.current = some cur) (hp : p ∈ s.threads) (hne : p ≠ cur)
    (ht : s.heap p = some t) (hr : t.status = READY) :
    ∃ n, yield_choice condition s cur = some n := by
  have hmem : cur ∈ s.threads := by
    obtain ⟨_, _, c, hc, hm⟩ := hwf
    rw [hcur] at hc; cases hc; exact hm
  have hp2 : p ∈ ring_after s.threads cur :=
    (mem_ring_after s.threads cur p hwf.1 hmem).2 ⟨hp, hne⟩
  unfold yield_choice
  split
  · rename_i m _; exact ⟨m, rfl⟩
  · have := last_match_found (fun t => decide (t.status = READY)) s _ none p t hp2 ht
      (by simp [hr])
    exact Option.isSome_iff_exists.1 this

theorem yield_choice_none (condition : Int) (s : floral_state) (cur : Ptr)
    (hwf : wf s) (hcur : s.current = some cur)
    (h : ∀ p ∈ s.threads, p ≠ cur → status_of s p ≠ some READY) :
    yield_choice condition s cur = none := by
  cases hy : yield_choice condition s cur with
  | none => rfl
  | some n =>
    obtain ⟨h1, h2, tn, htn, hr⟩ := yield_choice_some condition s cur n hwf hcur hy
    exact absurd (by simp [status_of, htn, hr]) (h n h1 h2)

theorem yield_choice_tag (condition : Int) (s : floral_state) (cur n m : Ptr)
    (tn tm : grn_thread) (hwf : wf s) (hcur : s.current = some cur) (hc : condition ≠ 0)
    (hm : m ∈ s.threads) (hne : m ≠ cur) (htm : s.heap m = some tm) (hr : tm.status = READY)
    (htag : tm.condition = condition) (h : yield_choice condition s cur = some n)
    (htn : s.heap n = some tn) : tn.condition = condition := by
  have hmem : cur ∈ s.threads := by
    obtain ⟨_, _, c, hc, hm⟩ := hwf
    rw [hcur] at hc; cases hc; exact hm
  have hm2 : m ∈ ring_after s.threads cur :=
    (mem_ring_after s.threads cur m hwf.1 hmem).2 ⟨hm, hne⟩
  have hfound := last_match_found
    (fun t => decide (t.condition = condition ∧ t.status = READY)) s _ none m tm hm2 htm
    (by simp [hr, htag])
  obtain ⟨k, hk⟩ := Option.isSome_iff_exists.1 hfound
  unfold yield_choice at h
  simp only [hc, ne_eq, not_false_eq_true, if_true, hk] at h
  cases h
  obtain ⟨_, t, ht, hp⟩ := last_match_some _ s _ n hk
  rw [htn] at ht
  cases ht
  simp at hp
  exact hp.1

/-! ## Theorems: `grn_yield` -/

theorem grn_init_boot_only :
    grn_init 1 (STATE { rsp := 0 } (fun _ => 0)) = some boot_only := by
  simp only [grn_init, grn_new_thread, STATE, add_thread, set_status, boot_only, tcb,
    Option.bind_eq_bind, Option.some_bind, if_true, List.nil_append, Option.some.injEq,
    floral_state.mk.injEq, true_and, and_true, zero_add]
  funext q
  by_cases h : q = 1 <;> simp [h]

/-- C1, as the spec states it, fails: in the state `grn_init` leaves (only the
bootstrap thread exists, so no other thread is READY) `grn_yield(0)` returns
-1 but does not leave the state unchanged; the status of the caller goes from
RUNNING to READY. -/
theorem grn_yield_failure_changes_state :
    grn_init 1 (STATE { rsp := 0 } (fun _ => 0)) = some boot_only ∧
    wf boot_only ∧
    (∀ p ∈ boot_only.threads, some p ≠ boot_only.current → status_of boot_only p ≠ some READY) ∧
    status_of boot_only 1 = some RUNNING ∧
    (grn_yield 0 boot_only).map (fun r => (r.1, status_of r.2 1)) = some (-1, some READY) ∧
    grn_yield 0 boot_only ≠ some (-1, boot_only) := by
  refine ⟨grn_init_boot_only, ⟨by decide, by decide, 1, rfl, by decide⟩, by decide, by decide,
    by decide, ?_⟩
  intro h
  have h2 := congrArg (fun o => o.map (fun r => (r.1, status_of r.2 1))) h
  revert h2
  decide

/-- C1, amended: when no thread of the ring other than `current` is READY,
`grn_yield(c)` returns -1 for every `c`; it leaves the ring order, `current`,
every other TCB and the rest of the state as they were and makes no context
switch; the caller's TCB keeps all its fields but the status, which becomes
READY if it was RUNNING and is unchanged otherwise, in which case the whole
state is unchanged. -/
theorem grn_yield_no_candidate (condition : Int) (s : floral_state) (cur : Ptr)
    (tc : grn_thread) (hwf : wf s) (hcur : s.current = some cur) (hc : s.heap cur = some tc)
    (hnone : ∀ p ∈ s.threads, p ≠ cur → status_of s p ≠ some READY) :
    ∃ s1, grn_yield condition s = some (-1, s1) ∧
      s1.threads = s.threads ∧ s1.current = s.current ∧ s1.switches = s.switches ∧
      s1.cpu = s.cpu ∧ s1.memory = s.memory ∧ s1.next_id = s.next_id ∧
      (∀ p, p ≠ cur → s1.heap p = s.heap p) ∧
      s1.heap cur
        = some { tc with status := if tc.status = RUNNING then READY else tc.status } ∧
      (tc.status ≠ RUNNING → s1 = s) := by
  refine ⟨demoted s cur tc, ?_, rfl, rfl, rfl, rfl, rfl, rfl, ?_, ?_, ?_⟩
  · exact grn_yield_fail_eq condition s cur tc hwf hcur hc
      (yield_choice_none condition s cur hwf hcur hnone)
  · intro p hp
    simp [demoted, hp]
  · simp [demoted]
  · intro hr
    have h1 := demote_current_eq s cur tc hcur hc
    have h2 : demote_current s = some s := by
      simp [demote_current, hcur, hc, hr]
    rw [h2] at h1
    exact (Option.some.inj h1).symm

/-- Witness of `grn_yield_no_candidate`: the state `grn_init` leaves. -/
theorem grn_yield_no_candidate_witness :
    wf boot_only ∧ boot_only.current = some 1 ∧ boot_only.heap 1 = some (tcb 0 RUNNING 0) ∧
    (∀ p ∈ boot_only.threads, p ≠ 1 → status_of boot_only p ≠ some READY) ∧
    ∃ s1, grn_yield 0 boot_only = some (-1, s1) ∧
      s1.threads = boot_only.threads ∧ s1.current = boot_only.current ∧
      s1.switches = boot_only.switches ∧
      s1.cpu = boot_only.cpu ∧ s1.memory = boot_only.memory ∧
      s1.next_id = boot_only.next_id ∧
      (∀ p, p ≠ 1 → s1.heap p = boot_only.heap p) ∧
      s1.heap 1
        = some { tcb 0 RUNNING 0 with
                 status := if (tcb 0 RUNNING 0).status = RUNNING then READY
                           else (tcb 0 RUNNING 0).status } ∧
      ((tcb 0 RUNNING 0).status ≠ RUNNING → s1 = boot_only) :=
  ⟨⟨by decide, by decide, 1, rfl, by decide⟩, rfl, rfl, by decide,
    grn_yield_no_candidate 0 boot_only 1 (tcb 0 RUNNING 0)
      ⟨by decide, by decide, 1, rfl, by decide⟩ rfl rfl (by decide)⟩

/-- C2: when some thread of the ring other than `current` is READY,
`grn_yield(c)` returns 0 for every `c`; the thread `n` it chose was READY
before the call, is RUNNING and `current` after it; the caller is READY
after the call if it was RUNNING before and keeps its status otherwise; every
other TCB is unchanged. -/
theorem grn_yield_success (condition : Int) (s : floral_state) (cur : Ptr)
    (tc : grn_thread) (hwf : wf s) (hcur : s.current = some cur) (hc : s.heap cur = some tc)
    (hex : ∃ p ∈ s.threads, p ≠ cur ∧ status_of s p = some READY) :
    ∃ s1 n tn, grn_yield condition s = some (0, s1) ∧
      n ∈ s.threads ∧ n ≠ cur ∧ s.heap n = some tn ∧ tn.status = READY ∧
      s1.current = some n ∧ status_of s1 n = some RUNNING ∧
      status_of s1 cur = some (if tc.status = RUNNING then READY else tc.status) ∧
      (∀ p, p ≠ n → p ≠ cur → s1.heap p = s.heap p) := by
  obtain ⟨p, hp, hpne, hps⟩ := hex
  obtain ⟨tp, htp⟩ : ∃ tp, s.heap p = some tp := by
    cases h : s.heap p with
    | none => simp [status_of, h] at hps
    | some tp => exact ⟨tp, rfl⟩
  have hpr : tp.status = READY := by simpa [status_of, htp] using hps
  obtain ⟨n, hn⟩ := yield_choice_isSome condition s cur p tp hwf hcur hp hpne htp hpr
  obtain ⟨hnm, hnne, tn, htn, hnr⟩ := yield_choice_some condition s cur n hwf hcur hn
  refine ⟨switched s cur n tc tn, n, tn,
    grn_yield_ok_eq condition s cur n tc tn hwf hcur hc hn htn hnne, hnm, hnne, htn, hnr, rfl,
    ?_, ?_, ?_⟩
  · simp [status_of, switched]
  · simp [status_of, switched, Ne.symm hnne]
  · intro q h1 h2
    simp [switched, h1, h2]

/-- Witness of `grn_yield_success`: three threads, two of them READY. -/
theorem grn_yield_success_witness :
    wf three_threads ∧ three_threads.current = some 1 ∧
    three_threads.heap 1 = some (tcb 0 RUNNING 0) ∧
    (∃ p ∈ three_threads.threads, p ≠ 1 ∧ status_of three_threads p = some READY) ∧
    ∃ s1 n tn, grn_yield 0 three_threads = some (0, s1) ∧
      n ∈ three_threads.threads ∧ n ≠ 1 ∧ three_threads.heap n = some tn ∧
      tn.status = READY ∧
      s1.current = some n ∧ status_of s1 n = some RUNNING ∧
      status_of s1 1
        = some (if (tcb 0 RUNNING 0).status = RUNNING then READY
                else (tcb 0 RUNNING 0).status) ∧
      (∀ p, p ≠ n → p ≠ 1 → s1.heap p = three_threads.heap p) :=
  ⟨⟨by decide, by decide, 1, rfl, by decide⟩, rfl, rfl, ⟨2, by decide, by decide, by decide⟩,
    grn_yield_success 0 three_threads 1 (tcb 0 RUNNING 0)
      ⟨by decide, by decide, 1, rfl, by decide⟩ rfl rfl ⟨2, by decide, by decide, by decide⟩⟩

/-- C4: when some thread other than `current` is READY, the thread `n` that
`grn_yield(c)` makes RUNNING and `current` is a READY thread of the ring other
than the caller, whatever its tag; and when `c` is nonzero and some READY
thread other than `current` has condition tag `c`, the tag of `n` is `c`. -/
theorem grn_yield_prefers_condition (condition : Int) (s : floral_state) (cur : Ptr)
    (tc : grn_thread) (hwf : wf s) (hcur : s.current = some cur) (hc : s.heap cur = some tc)
    (hex : ∃ p ∈ s.threads, p ≠ cur ∧ status_of s p = some READY) :
    ∃ s1 n tn, grn_yield condition s = some (0, s1) ∧
      s1.current = some n ∧ status_of s1 n = some RUNNING ∧
      n ∈ s.threads ∧ n ≠ cur ∧ s.heap n = some tn ∧ tn.status = READY ∧
      (condition ≠ 0 →
        (∃ m ∈ s.threads, m ≠ cur ∧
          ∃ tm, s.heap m = some tm ∧ tm.status = READY ∧ tm.condition = condition) →
        tn.condition = condition) := by
  obtain ⟨p, hp, hpne, hps⟩ := hex
  obtain ⟨tp, htp⟩ : ∃ tp, s.heap p = some tp := by
    cases h : s.heap p with
    | none => simp [status_of, h] at hps
    | some tp => exact ⟨tp, rfl⟩
  have hpr : tp.status = READY := by simpa [status_of, htp] using hps
  obtain ⟨n, hn⟩ := yield_choice_isSome condition s cur p tp hwf hcur hp hpne htp hpr
  obtain ⟨hnm, hnne, tn, htn, hnr⟩ := yield_choice_some condition s cur n hwf hcur hn
  refine ⟨switched s cur n tc tn, n, tn,
    grn_yield_ok_eq condition s cur n tc tn hwf hcur hc hn htn hnne, rfl, ?_, hnm, hnne, htn,
    hnr, ?_⟩
  · simp [status_of, switched]
  · rintro hc0 ⟨m, hm, hmne, tm, htm, hmr, hmtag⟩
    exact yield_choice_tag condition s cur n m tn tm hwf hcur hc0 hm hmne htm hmr hmtag hn htn

/-- Witness of `grn_yield_prefers_condition`: three threads, the one at 2
READY with tag 7, the one at 3 READY with tag 0, and the signal 7. -/
theorem grn_yield_prefers_condition_witness :
    wf three_threads ∧ three_threads.current = some 1 ∧
    three_threads.heap 1 = some (tcb 0 RUNNING 0) ∧
    (∃ p ∈ three_threads.threads, p ≠ 1 ∧ status_of three_threads p = some READY) ∧
    ∃ s1 n tn, grn_yield 7 three_threads = some (0, s1) ∧
      s1.current = some n ∧ status_of s1 n = some RUNNING ∧
      n ∈ three_threads.threads ∧ n ≠ 1 ∧ three_threads.heap n = some tn ∧
      tn.status = READY ∧
      ((7 : Int) ≠ 0 →
        (∃ m ∈ three_threads.threads, m ≠ 1 ∧
          ∃ tm, three_threads.heap m = some tm ∧ tm.status = READY ∧ tm.condition = 7) →
        tn.condition = 7) :=
  ⟨⟨by decide, by decide, 1, rfl, by decide⟩, rfl, rfl, ⟨2, by decide, by decide, by decide⟩,
    grn_yield_prefers_condition 7 three_threads 1 (tcb 0 RUNNING 0)
      ⟨by decide, by decide, 1, rfl, by decide⟩ rfl rfl ⟨2, by decide, by decide, by decide⟩⟩

/-- C3 fails on the code: `grn_yield` and `grn_wait` assign `STATE.current =
nxt_thread` before they evaluate `&(STATE.current->context)`, so the switch is
called with the chosen thread's context as `from` and as `to`.  In
`two_threads` the caller is the TCB at 1 and the chosen thread the TCB at 2:
the one switch recorded is `(2, 2)`, the caller's live stack pointer 500 is
saved into the TCB at 2, the caller's own TCB keeps its old context, and the
context 900 of the chosen thread is never loaded. -/
theorem grn_yield_switches_chosen_to_itself :
    (grn_yield 0 two_threads).map
        (fun r => (r.1, r.2.current, r.2.switches, rsp_of r.2 1, rsp_of r.2 2, r.2.cpu.rsp))
      = some (0, some 2, [(2, 2)], some 0, some 500, 500) ∧
    (grn_wait 5 two_threads).map
        (fun r => (r.1, r.2.current, r.2.switches, rsp_of r.2 1, rsp_of r.2 2, r.2.cpu.rsp))
      = some (0, some 2, [(2, 2)], some 0, some 500, 500) := by
  exact ⟨rfl, rfl⟩

/-- C6 fails on the code: with two READY threads of tag 7 in the ring,
`grn_yield(7)` runs the one the traversal from `current` meets last (the TCB
at 3), not the one it meets first (the TCB at 2). -/
theorem grn_yield_runs_last_waiter :
    [next_thread two_waiters 1, next_thread two_waiters 2, next_thread two_waiters 3]
      = [some 2, some 3, some 1] ∧
    [status_of two_waiters 2, status_of two_waiters 3] = [some READY, some READY] ∧
    [condition_of two_waiters 2, condition_of two_waiters 3] = [some 7, some 7] ∧
    (grn_yield 7 two_waiters).map (fun r => (r.1, r.2.current, status_of r.2 3, status_of r.2 2))
      = some (0, some 3, some RUNNING, some READY) := by
  exact ⟨rfl, rfl, rfl, rfl⟩

/-- C5 fails on the code: `grn_wait` never stores its condition in the
waiter's TCB.  From the state with the bootstrap thread (TCB at 1, current)
and two spawned READY threads, the bootstrap thread calls `grn_wait(5)`: the
thread at 3 becomes current and the tag of the waiter is still 0.  Then the
thread at 3 calls `grn_yield(5)`: the thread made current is the one at 2, and
the waiter stays READY. -/
theorem grn_wait_then_yield_misses_waiter :
    spawned_two.map observe
      = some ([1, 2, 3], some 1, [some RUNNING, some READY, some READY],
          [some 0, some 0, some 0]) ∧
    (spawned_two.bind (grn_wait 5)).map (fun r => (r.1, observe r.2))
      = some (0, [1, 2, 3], some 3, [some READY, some READY, some RUNNING],
          [some 0, some 0, some 0]) ∧
    ((spawned_two.bind (grn_wait 5)).bind (fun r => grn_yield 5 r.2)).map
        (fun r => (r.1, observe r.2))
      = some (0, [1, 3, 2], some 2, [some READY, some RUNNING, some READY],
          [some 0, some 0, some 0]) := by
  exact ⟨rfl, rfl, rfl⟩

/-! ## Theorems: `grn_gc`, `grn_spawn`, `grn_exit` -/

theorem gc_loop_freed (fuel : Nat) (c : Ptr) (s : floral_state) (h : s.heap c = none) :
    gc_loop fuel c s = none := by
  cases fuel with
  | zero => rfl
  | succ k => simp [gc_loop, next_thread, h]

/-- C8 fails on the code: `grn_gc` destroys the ZOMBIE it is standing on and
then calls `next_thread` on it.  In `with_zombie` the traversal goes from the
current TCB at 1 to the ZOMBIE at 2 and destroys it; the TCB at 2 is then
freed memory, its ring linkage cannot be read, and the loop has no defined
continuation, whatever the bound on its iterations. -/
theorem grn_gc_reads_destroyed_thread :
    status_of with_zombie 1 = some RUNNING ∧ status_of with_zombie 2 = some ZOMBIE ∧
    next_thread with_zombie 1 = some 2 ∧
    (∃ s1, grn_destroy_thread 2 with_zombie = some s1 ∧ s1.threads = [1] ∧
      s1.heap 2 = none ∧ next_thread s1 2 = none) ∧
    (∀ fuel, gc_loop fuel 1 with_zombie = none) ∧
    grn_gc with_zombie = none := by
  refine ⟨rfl, rfl, rfl, ⟨_, rfl, rfl, rfl, rfl⟩, ?_, rfl⟩
  intro fuel
  cases fuel with
  | zero => rfl
  | succ k =>
    have h1 : next_thread with_zombie 1 = some 2 := rfl
    have h2 : with_zombie.heap 2 = some (tcb 1 ZOMBIE 0) := rfl
    have h3 : with_zombie.current = some 1 := rfl
    simp only [gc_loop, h1, h2, h3]
    simp only [Option.some.injEq, OfNat.ofNat_ne_one, if_false, tcb, if_true]
    cases hd : grn_destroy_thread 2 with_zombie with
    | none => rfl
    | some s1 =>
      simp only
      apply gc_loop_freed
      simp [grn_destroy_thread, with_zombie, tcb] at hd
      rw [← hd]
      simp

/-- C9 fails on the code: `grn_spawn` switches into the new thread at line 66
with `STATE.current` still the bootstrap TCB.  After `grn_init` and that part
of `grn_spawn(f)` the processor runs on the new stack (its stack pointer is
the primed one, where the trampoline address 555 and above it the address 666
of `f` were stored) while `current` is the TCB at 1 with id 0; so the call of
`grn_exit` that `f` makes takes the branch `exit(0)`: the process ends inside
`grn_spawn`, with both TCBs in the ring. -/
theorem grn_spawn_then_exit_ends_process :
    spawned_one.map (fun s => (s.threads, s.current, id_of s 1, status_of s 1, s.switches))
      = some ([1, 2], some 1, some 0, some RUNNING, [(1, 2)]) ∧
    spawned_one.map (fun s => (s.cpu.rsp, rsp_of s 2, load64 s.memory 14080,
        load64 s.memory 14088))
      = some (14080, some 14080, 555, 666) ∧
    spawned_one.map (fun s => exit_status (grn_exit s)) = some (some 0) := by
  exact ⟨rfl, rfl, rfl⟩

/-! ## Theorems: the states a call leaves -/

theorem wf_current (s : floral_state) (hwf : wf s) :
    ∃ cur tc, s.current = some cur ∧ cur ∈ s.threads ∧ s.heap cur = some tc := by
  obtain ⟨_, hl, c, hc, hm⟩ := hwf
  obtain ⟨t, ht⟩ := Option.isSome_iff_exists.1 (hl c hm)
  exact ⟨c, t, hc, hm, ht⟩

theorem wf_demoted (s : floral_state) (cur : Ptr) (tc : grn_thread) (hwf : wf s) :
    wf (demoted s cur tc) := by
  obtain ⟨hn, hl, c, hc, hm⟩ := hwf
  refine ⟨hn, ?_, c, hc, hm⟩
  intro p hp
  by_cases h : p = cur
  · simp [demoted, h]
  · simpa [demoted, h] using hl p hp

theorem wf_switched (s : floral_state) (cur n : Ptr) (tc tn : grn_thread) (hwf : wf s) :
    wf (switched s cur n tc tn) := by
  obtain ⟨hn, hl, c, hc, hm⟩ := hwf
  have hnot : n ∉ s.threads.erase n := fun h => (List.Nodup.mem_erase_iff hn).1 h |>.1 rfl
  refine ⟨?_, ?_, n, rfl, by simp [switched]⟩
  · show (s.threads.erase n ++ [n]).Nodup
    rw [List.nodup_append]
    refine ⟨hn.erase n, List.nodup_singleton n, ?_⟩
    intro a ha hb
    have : a = n := by simpa using hb
    exact hnot (this ▸ ha)
  · intro p hp
    have hp2 : p ∈ s.threads.erase n ++ [n] := hp
    by_cases h1 : p = n
    · simp [switched, h1]
    · by_cases h2 : p = cur
      · subst h2
        simp [switched, h1]
      · have : p ∈ s.threads := by
          rcases List.mem_append.1 hp2 with h | h
          · exact List.mem_of_mem_erase h
          · exact absurd (by simpa using h) h1
        simpa [switched, h1, h2] using hl p this

theorem mem_switched (s : floral_state) (cur n : Ptr) (tc tn : grn_thread) (p : Ptr)
    (hn : n ∈ s.threads) : p ∈ (switched s cur n tc tn).threads ↔ p ∈ s.threads := by
  show p ∈ s.threads.erase n ++ [n] ↔ _
  by_cases h : p = n
  · subst h; simp [hn]
  · simp [h, List.mem_erase_of_ne h]

theorem grn_yield_cases (condition ret : Int) (s s1 : floral_state) (cur : Ptr)
    (tc : grn_thread) (hwf : wf s) (hcur : s.current = some cur) (hc : s.heap cur = some tc)
    (h : grn_yield condition s = some (ret, s1)) :
    (ret = -1 ∧ s1 = demoted s cur tc) ∨
    (ret = 0 ∧ ∃ n tn, n ∈ s.threads ∧ n ≠ cur ∧ s.heap n = some tn ∧ tn.status = READY ∧
      s1 = switched s cur n tc tn) := by
  cases hy : yield_choice condition s cur with
  | none =>
    rw [grn_yield_fail_eq condition s cur tc hwf hcur hc hy] at h
    simp only [Option.some.injEq, Prod.mk.injEq] at h
    exact Or.inl ⟨h.1.symm, h.2.symm⟩
  | some n =>
    obtain ⟨h1, h2, tn, h3, h4⟩ := yield_choice_some condition s cur n hwf hcur hy
    rw [grn_yield_ok_eq condition s cur n tc tn hwf hcur hc hy h3 h2] at h
    simp only [Option.some.injEq, Prod.mk.injEq] at h
    exact Or.inr ⟨h.1.symm, n, tn, h1, h2, h3, h4, h.2.symm⟩

theorem grn_wait_fail_eq (condition : Int) (s : floral_state) (cur : Ptr) (tc : grn_thread)
    (hwf : wf s) (hcur : s.current = some cur) (hc : s.heap cur = some tc)
    (hpick : (if condition ≠ 0 then
      last_match (fun t => decide (t.status = READY)) s (ring_after s.threads cur) none
      else none) = none) :
    grn_wait condition s = some (-1, demoted s cur tc) := by
  unfold grn_wait
  rw [wait_pick_eq condition s cur hwf hcur, hpick, demote_current_eq s cur tc hcur hc]
  rfl

theorem grn_wait_ok_eq (condition : Int) (s : floral_state) (cur n : Ptr) (tc tn : grn_thread)
    (hwf : wf s) (hcur : s.current = some cur) (hc : s.heap cur = some tc)
    (hpick : (if condition ≠ 0 then
      last_match (fun t => decide (t.status = READY)) s (ring_after s.threads cur) none
      else none) = some n) (hn : s.heap n = some tn) (hne : n ≠ cur) :
    grn_wait condition s = some (0, switched s cur n tc tn) := by
  unfold grn_wait
  rw [wait_pick_eq condition s cur hwf hcur, hpick, demote_current_eq s cur tc hcur hc]
  simp only [Option.bind_eq_bind, Option.some_bind, set_status, demoted, hne, if_false, hn,
    add_thread, remove_thread, grn_context_switch, if_true, Option.pure_def, switched,
    Option.some.injEq, Prod.mk.injEq, true_and, floral_state.mk.injEq, and_true]
  funext q
  by_cases h1 : q = n
  · simp [h1]
  · simp [h1]

theorem grn_wait_cases (condition ret : Int) (s s1 : floral_state) (cur : Ptr)
    (tc : grn_thread) (hwf : wf s) (hcur : s.current = some cur) (hc : s.heap cur = some tc)
    (h : grn_wait condition s = some (ret, s1)) :
    (ret = -1 ∧ s1 = demoted s cur tc) ∨
    (ret = 0 ∧ ∃ n tn, n ∈ s.threads ∧ n ≠ cur ∧ s.heap n = some tn ∧ tn.status = READY ∧
      s1 = switched s cur n tc tn) := by
  have hmem : cur ∈ s.threads := by
    obtain ⟨_, _, c, hc2, hm⟩ := hwf
    rw [hcur] at hc2; cases hc2; exact hm
  cases hy : (if condition ≠ 0 then
      last_match (fun t => decide (t.status = READY)) s (ring_after s.threads cur) none
      else none) with
  | none =>
    rw [grn_wait_fail_eq condition s cur tc hwf hcur hc hy] at h
    simp only [Option.some.injEq, Prod.mk.injEq] at h
    exact Or.inl ⟨h.1.symm, h.2.symm⟩
  | some n =>
    have hl : last_match (fun t => decide (t.status = READY)) s (ring_after s.threads cur) none
        = some n := by
      by_cases hc0 : condition = 0
      · simp [hc0] at hy
      · simpa [hc0] using hy
    obtain ⟨h1, tn, h3, h4⟩ := last_match_some _ s _ n hl
    rw [mem_ring_after s.threads cur n hwf.1 hmem] at h1
    rw [grn_wait_ok_eq condition s cur n tc tn hwf hcur hc hy h3 h1.2] at h
    simp only [Option.some.injEq, Prod.mk.injEq] at h
    exact Or.inr ⟨h.1.symm, n, tn, h1.1, h1.2, h3, by simpa using h4, h.2.symm⟩

theorem running_demoted (s : floral_state) (cur : Ptr) (tc : grn_thread)
    (hinv : running_is_current s) (hcur : s.current = some cur) :
    running_is_current (demoted s cur tc) := by
  refine ⟨wf_demoted s cur tc hinv.1, ?_⟩
  intro p hp hr
  by_cases h : p = cur
  · subst h; exact hcur
  · have : status_of s p = some RUNNING := by simpa [status_of, demoted, h] using hr
    exact hinv.2 p hp this

theorem running_switched (s : floral_state) (cur n : Ptr) (tc tn : grn_thread)
    (hinv : running_is_current s) (hcur : s.current = some cur) (hn : n ∈ s.threads) :
    running_is_current (switched s cur n tc tn) := by
  refine ⟨wf_switched s cur n tc tn hinv.1, ?_⟩
  intro p hp hr
  by_cases h1 : p = n
  · subst h1; rfl
  · exfalso
    by_cases h2 : p = cur
    · subst h2
      simp only [status_of, switched, h1, if_false, if_true, Option.map_some, Option.some.injEq]
        at hr
      by_cases h3 : tc.status = RUNNING
      · simp [h3] at hr
      · simp [h3] at hr
    · have hs : status_of s p = some RUNNING := by
        simpa [status_of, switched, h1, h2] using hr
      have hp2 : p ∈ s.threads := (mem_switched s cur n tc tn p hn).1 hp
      have := hinv.2 p hp2 hs
      rw [hcur] at this
      exact h2 (Option.some.inj this).symm

theorem running_grn_yield (condition ret : Int) (s s1 : floral_state)
    (hinv : running_is_current s) (h : grn_yield condition s = some (ret, s1)) :
    running_is_current s1 := by
  obtain ⟨cur, tc, hcur, _, hc⟩ := wf_current s hinv.1
  rcases grn_yield_cases condition ret s s1 cur tc hinv.1 hcur hc h with
    ⟨_, rfl⟩ | ⟨_, n, tn, hn, _, _, _, rfl⟩
  · exact running_demoted s cur tc hinv hcur
  · exact running_switched s cur n tc tn hinv hcur hn

theorem running_grn_wait (condition ret : Int) (s s1 : floral_state)
    (hinv : running_is_current s) (h : grn_wait condition s = some (ret, s1)) :
    running_is_current s1 := by
  obtain ⟨cur, tc, hcur, _, hc⟩ := wf_current s hinv.1
  rcases grn_wait_cases condition ret s s1 cur tc hinv.1 hcur hc h with
    ⟨_, rfl⟩ | ⟨_, n, tn, hn, _, _, _, rfl⟩
  · exact running_demoted s cur tc hinv hcur
  · exact running_switched s cur n tc tn hinv hcur hn

theorem running_set_status (s s1 : floral_state) (p : Ptr) (st : grn_status)
    (hinv : running_is_current s) (hst : st = RUNNING → s.current = some p)
    (h : set_status p st s = some s1) : running_is_current s1 := by
  unfold set_status at h
  cases hp : s.heap p with
  | none => simp [hp] at h
  | some t =>
    simp only [hp, Option.some.injEq] at h
    subst h
    obtain ⟨⟨hn, hl, c, hc, hm⟩, hrun⟩ := hinv
    refine ⟨⟨hn, ?_, c, hc, hm⟩, ?_⟩
    · intro q hq
      by_cases hqp : q = p
      · simp [hqp]
      · simpa [hqp] using hl q hq
    · intro q hq hr
      by_cases hqp : q = p
      · subst hqp
        have : st = RUNNING := by simpa [status_of] using hr
        exact hst this
      · have : status_of s q = some RUNNING := by simpa [status_of, hqp] using hr
        exact hrun q hq this

theorem running_grn_exit (s s1 : floral_state) (hinv : running_is_current s)
    (h : grn_exit s = exit_result.returned s1) : running_is_current s1 := by
  unfold grn_exit at h
  cases hcur : s.current with
  | none => simp [hcur] at h
  | some cur =>
    cases hc : s.heap cur with
    | none => simp [hcur, hc] at h
    | some t =>
      simp only [hcur, hc] at h
      by_cases hid : t.id = 0
      · simp [hid] at h
      · simp only [hid, if_false] at h
        cases hz : set_status cur ZOMBIE s with
        | none => simp [hz] at h
        | some sz =>
          simp only [hz] at h
          have hinvz := running_set_status s sz cur ZOMBIE hinv (fun e => by cases e) hz
          cases hy : grn_yield 0 sz with
          | none => simp [hy] at h
          | some r =>
            obtain ⟨ret, s2⟩ := r
            simp only [hy, exit_result.returned.injEq] at h
            subst h
            exact running_grn_yield 0 ret sz s2 hinvz hy

theorem gc_loop_unchanged (fuel : Nat) :
    ∀ (c : Ptr) (s s1 : floral_state), gc_loop fuel c s = some s1 → s1 = s := by
  induction fuel with
  | zero => intro c s s1 h; simp [gc_loop] at h
  | succ k ih =>
    intro c s s1 h
    unfold gc_loop at h
    cases hn : next_thread s c with
    | none => simp [hn] at h
    | some d =>
      simp only [hn] at h
      by_cases hd : some d = s.current
      · simp only [hd, if_true, Option.some.injEq] at h
        exact h.symm
      · simp only [hd, if_false] at h
        cases ht : s.heap d with
        | none => simp [ht] at h
        | some t =>
          simp only [ht] at h
          by_cases hz : t.status = ZOMBIE
          · simp only [hz, if_true] at h
            cases hx : grn_destroy_thread d s with
            | none => simp [hx] at h
            | some s2 =>
              simp only [hx] at h
              have hfree : s2.heap d = none := by
                simp only [grn_destroy_thread, ht, Option.some.injEq] at hx
                rw [← hx]; simp
              rw [gc_loop_freed k d s2 hfree] at h
              cases h
          · simp only [hz, if_false] at h
            exact ih d s s1 h

theorem running_grn_gc (s s1 : floral_state) (hinv : running_is_current s)
    (h : grn_gc s = some s1) : running_is_current s1 := by
  unfold grn_gc grn_current at h
  cases hcur : s.current with
  | none => simp [hcur] at h
  | some cur =>
    simp only [hcur, Option.bind_eq_bind, Option.some_bind] at h
    rw [gc_loop_unchanged _ cur s s1 h]
    exact hinv

theorem grn_spawn_begin_spec (STACK_SIZE start_thread fn : Nat) (p : Ptr) (stk : Nat)
    (n : Ptr) (s s1 : floral_state)
    (h : grn_spawn_begin STACK_SIZE start_thread fn p stk s = some (n, s1)) :
    s.heap p = none ∧ n = p ∧ s1.threads = s.threads ++ [p] ∧ s1.current = s.current ∧
      status_of s1 p = some READY ∧ (∀ q, q ≠ p → status_of s1 q = status_of s q) := by
  unfold grn_spawn_begin grn_new_thread at h
  cases hp : s.heap p with
  | some t => simp [hp] at h
  | none =>
    simp only [hp, add_thread, set_status, set_rsp, Option.bind_eq_bind, Option.some_bind,
      if_true, Option.pure_def] at h
    cases hcur : s.current with
    | none => simp [hcur] at h
    | some cur =>
      simp only [hcur, Option.some_bind, grn_context_switch] at h
      by_cases hcp : cur = p
      · subst hcp
        simp only [if_true, Option.some_bind, Option.some.injEq, Prod.mk.injEq] at h
        obtain ⟨h1, h2⟩ := h
        subst h2
        refine ⟨rfl, h1.symm, rfl, rfl, ?_, ?_⟩
        · simp [status_of]
        · intro q hq
          simp [status_of, hq]
      · simp only [hcp, if_false] at h
        cases hc : s.heap cur with
        | none => simp [hc] at h
        | some tc =>
          simp only [hc, if_true, Ne.symm hcp, if_false, Option.some_bind, Option.some.injEq,
            Prod.mk.injEq] at h
          obtain ⟨h1, h2⟩ := h
          subst h2
          refine ⟨rfl, h1.symm, rfl, rfl, ?_, ?_⟩
          · simp [status_of, Ne.symm hcp]
          · intro q hq
            by_cases hqc : q = cur
            · subst hqc
              simp [status_of, hc]
            · simp [status_of, hq, hqc]

theorem running_grn_spawn_begin (STACK_SIZE start_thread fn : Nat) (p : Ptr) (stk : Nat)
    (n : Ptr) (s s1 : floral_state) (hinv : running_is_current s)
    (h : grn_spawn_begin STACK_SIZE start_thread fn p stk s = some (n, s1)) :
    running_is_current s1 := by
  obtain ⟨hp, _, hthr, hcur, hsp, hso⟩ :=
    grn_spawn_begin_spec STACK_SIZE start_thread fn p stk n s s1 h
  obtain ⟨⟨hn, hl, c, hc, hm⟩, hrun⟩ := hinv
  have hpn : p ∉ s.threads := by
    intro hmem
    have := hl p hmem
    rw [hp] at this
    cases this
  have hsome : ∀ q, (s1.heap q).isSome = (status_of s1 q).isSome := by
    intro q; simp [status_of]
  have hsome0 : ∀ q, (s.heap q).isSome = (status_of s q).isSome := by
    intro q; simp [status_of]
  refine ⟨⟨?_, ?_, c, by rw [hcur]; exact hc, by rw [hthr]; simp [hm]⟩, ?_⟩
  · rw [hthr, List.nodup_append]
    refine ⟨hn, List.nodup_singleton p, ?_⟩
    intro a ha hb
    have : a = p := by simpa using hb
    exact hpn (this ▸ ha)
  · intro q hq
    rw [hthr] at hq
    by_cases hqp : q = p
    · rw [hsome, hqp, hsp]; rfl
    · have hq2 : q ∈ s.threads := by
        rcases List.mem_append.1 hq with h1 | h1
        · exact h1
        · exact absurd (by simpa using h1) hqp
      rw [hsome, hso q hqp, ← hsome0]
      exact hl q hq2
  · intro q hq hr
    rw [hthr] at hq
    by_cases hqp : q = p
    · rw [hqp, hsp] at hr
      cases hr
    · have hq2 : q ∈ s.threads := by
        rcases List.mem_append.1 hq with h1 | h1
        · exact h1
        · exact absurd (by simpa using h1) hqp
      rw [hso q hqp] at hr
      rw [hcur]
      exact hrun q hq2 hr

theorem running_grn_init (cpu : grn_context) (memory : Nat → Nat) (p : Ptr) (s : floral_state)
    (h : grn_init p (STATE cpu memory) = some s) : running_is_current s := by
  simp only [grn_init, grn_new_thread, STATE, add_thread, set_status, Option.bind_eq_bind,
    Option.some_bind, if_true, List.nil_append, Option.some.injEq] at h
  subst h
  refine ⟨⟨List.nodup_singleton p, ?_, p, rfl, List.mem_singleton_self p⟩, ?_⟩
  · intro q hq
    have : q = p := by simpa using hq
    simp [this]
  · intro q hq _
    have : q = p := by simpa using hq
    simp [this]

theorem running_sched_step (s s1 : floral_state) (hinv : running_is_current s)
    (h : sched_step s s1) : running_is_current s1 := by
  cases h with
  | spawn STACK_SIZE start_thread fn p stk n h =>
    exact running_grn_spawn_begin STACK_SIZE start_thread fn p stk n s s1 hinv h
  | yield condition ret h => exact running_grn_yield condition ret s s1 hinv h
  | wait condition ret h => exact running_grn_wait condition ret s s1 hinv h
  | exit h => exact running_grn_exit s s1 hinv h
  | gc h => exact running_grn_gc s s1 hinv h

/-- C7, as the spec states it, fails: the state reached by `grn_init` followed
by `grn_yield(0)` has no RUNNING thread at all; its only TCB, the bootstrap
thread `current` points to, is READY. -/
theorem reachable_without_running :
    ∃ s, reachable s ∧ s.threads = [1] ∧ s.current = some 1 ∧
      status_of s 1 = some READY ∧ ∀ p ∈ s.threads, status_of s p ≠ some RUNNING := by
  have hy : grn_yield 0 boot_only = some (-1, demoted boot_only 1 (tcb 0 RUNNING 0)) :=
    grn_yield_fail_eq 0 boot_only 1 (tcb 0 RUNNING 0)
      ⟨by decide, by decide, 1, rfl, by decide⟩ rfl rfl rfl
  refine ⟨demoted boot_only 1 (tcb 0 RUNNING 0), ?_, rfl, rfl, rfl, by decide⟩
  exact reachable.step boot_only _
    (reachable.init { rsp := 0 } (fun _ => 0) 1 boot_only grn_init_boot_only)
    (sched_step.yield boot_only _ 0 (-1) hy)

/-- C7, amended: in every state reachable from `grn_init` by calls of
`grn_spawn`, `grn_yield`, `grn_wait`, `grn_exit` (on a thread that is not the
bootstrap thread) and `grn_gc`, the ring is well formed, every RUNNING TCB of
the ring is the one `current` points to, and so at most one TCB of the ring is
RUNNING. -/
theorem reachable_running_is_current (s : floral_state) (h : reachable s) :
    wf s ∧ (∀ p ∈ s.threads, status_of s p = some RUNNING → s.current = some p) ∧
      (∀ p ∈ s.threads, ∀ q ∈ s.threads,
        status_of s p = some RUNNING → status_of s q = some RUNNING → p = q) := by
  have hinv : running_is_current s := by
    induction h with
    | init cpu memory p s h => exact running_grn_init cpu memory p s h
    | step s s1 _ hs ih => exact running_sched_step s s1 ih hs
  refine ⟨hinv.1, hinv.2, ?_⟩
  intro p hp q hq h1 h2
  have e1 := hinv.2 p hp h1
  have e2 := hinv.2 q hq h2
  rw [e1] at e2
  exact Option.some.inj e2

/-- Witness of `reachable_running_is_current`: the state `grn_init` leaves. -/
theorem reachable_running_is_current_witness :
    reachable boot_only ∧
    (wf boot_only ∧
      (∀ p ∈ boot_only.threads, status_of boot_only p = some RUNNING →
        boot_only.current = some p) ∧
      (∀ p ∈ boot_only.threads, ∀ q ∈ boot_only.threads,
        status_of boot_only p = some RUNNING → status_of boot_only q = some RUNNING → p = q)) :=
  ⟨reachable.init { rsp := 0 } (fun _ => 0) 1 boot_only grn_init_boot_only,
   reachable_running_is_current boot_only
    (reachable.init { rsp := 0 } (fun _ => 0) 1 boot_only grn_init_boot_only)⟩

/-! ## Theorems: `grn_join` -/

theorem can_yield_step (s : floral_state) (h : can_yield s) :
    ∃ s1, grn_yield 0 s = some (0, s1) ∧ can_yield s1 ∧ s1.cpu = s.cpu := by
  obtain ⟨hwf, cur, tc, hcur, hc, hst, p, hp, hpne, hps⟩ := h
  obtain ⟨tp, htp⟩ : ∃ tp, s.heap p = some tp := by
    cases h : s.heap p with
    | none => simp [status_of, h] at hps
    | some tp => exact ⟨tp, rfl⟩
  have hpr : tp.status = READY := by simpa [status_of, htp] using hps
  obtain ⟨n, hn⟩ := yield_choice_isSome 0 s cur p tp hwf hcur hp hpne htp hpr
  obtain ⟨hnm, hnne, tn, htn, _⟩ := yield_choice_some 0 s cur n hwf hcur hn
  have hcm : cur ∈ s.threads := by
    obtain ⟨_, _, c, hc2, hm⟩ := hwf
    rw [hcur] at hc2; cases hc2; exact hm
  refine ⟨switched s cur n tc tn, grn_yield_ok_eq 0 s cur n tc tn hwf hcur hc hn htn hnne,
    ⟨wf_switched s cur n tc tn hwf, n, { tn with status := RUNNING, context := s.cpu }, rfl,
      by simp [switched], Or.inl rfl, cur, (mem_switched s cur n tc tn cur hnm).2 hcm,
      Ne.symm hnne, ?_⟩, rfl⟩
  rcases hst with h1 | h1 <;> simp [status_of, switched, Ne.symm hnne, h1]

/-- Once `grn_join` has a thread to yield to, its loop never ends: every
`grn_yield(0)` in it returns 0 and leaves the live context as it was, so the
next thing that runs is the next iteration. -/
theorem grn_join_livelock (fuel : Nat) :
    ∀ s, can_yield s → ∃ s1, grn_join fuel s = join_result.running s1 ∧ s1.cpu = s.cpu := by
  induction fuel with
  | zero => intro s _; exact ⟨s, rfl, rfl⟩
  | succ k ih =>
    intro s h
    obtain ⟨s1, hy, hcan, hcpu⟩ := can_yield_step s h
    obtain ⟨s2, hj, hcpu2⟩ := ih s1 hcan
    refine ⟨s2, ?_, hcpu2.trans hcpu⟩
    simp [grn_join, hy, hj]

/-- C10 fails on the code: with the bootstrap thread RUNNING and current and
one spawned thread READY, `grn_join` does not return, however many iterations
it is given.  Each `grn_yield(0)` of its loop marks the other thread RUNNING
and current but switches from the chosen context to itself, so the processor
goes on with the loop of the caller (the live stack pointer stays 500); the
spawned thread never runs and never calls `grn_exit`. -/
theorem grn_join_does_not_return :
    status_of two_threads 1 = some RUNNING ∧ status_of two_threads 2 = some READY ∧
    two_threads.current = some 1 ∧
    ∀ fuel, ∃ s1, grn_join fuel two_threads = join_result.running s1 ∧ s1.cpu.rsp = 500 := by
  refine ⟨rfl, rfl, rfl, ?_⟩
  intro fuel
  have hcan : can_yield two_threads :=
    ⟨⟨by decide, by decide, 1, rfl, by decide⟩, 1, _, rfl, rfl, Or.inl rfl, 2, by decide,
      by decide, rfl⟩
  obtain ⟨s1, h1, h2⟩ := grn_join_livelock fuel two_threads hcan
  exact ⟨s1, h1, by rw [h2]; rfl⟩

/-! ## Theorems: the arguments of the context switch -/

/-- Every `grn_yield` or `grn_wait` that returns 0 on a well-formed state
makes one call of the context switch, and both arguments of that call are the
context of the thread it chose, which is `current` by then; the live context
is the same after the call as before. -/
theorem switch_from_is_chosen (condition ret : Int) (s s1 : floral_state) (hwf : wf s)
    (h : grn_yield condition s = some (ret, s1) ∨ grn_wait condition s = some (ret, s1))
    (hret : ret = 0) :
    ∃ n, s1.current = some n ∧ some n ≠ s.current ∧
      s1.switches = s.switches ++ [(n, n)] ∧ s1.cpu = s.cpu := by
  obtain ⟨cur, tc, hcur, _, hc⟩ := wf_current s hwf
  have hcases : (ret = -1 ∧ s1 = demoted s cur tc) ∨
      (ret = 0 ∧ ∃ n tn, n ∈ s.threads ∧ n ≠ cur ∧ s.heap n = some tn ∧ tn.status = READY ∧
        s1 = switched s cur n tc tn) := by
    rcases h with h | h
    · exact grn_yield_cases condition ret s s1 cur tc hwf hcur hc h
    · exact grn_wait_cases condition ret s s1 cur tc hwf hcur hc h
  rcases hcases with ⟨h1, _⟩ | ⟨_, n, tn, _, hne, _, _, rfl⟩
  · rw [hret] at h1; cases h1
  · refine ⟨n, rfl, ?_, rfl, rfl⟩
    rw [hcur]
    intro e
    exact hne (Option.some.inj e)

/-! ## Theorems: `grn_wait` -/

/-- C19: `grn_wait(0)` never schedules.  Whatever the other threads are, it
makes no search (the choice is the null pointer), returns -1, makes no context
switch, and leaves the ring, `current`, every other TCB and the rest of the
state as they were; the caller's TCB keeps all its fields but the status,
which goes from RUNNING to READY and is unchanged if it was not RUNNING. -/
theorem grn_wait_zero_never_schedules (s : floral_state) (cur : Ptr) (tc : grn_thread)
    (hcur : s.current = some cur) (hc : s.heap cur = some tc) :
    wait_pick 0 s = some none ∧
    ∃ s1, grn_wait 0 s = some (-1, s1) ∧
      s1.threads = s.threads ∧ s1.current = s.current ∧ s1.switches = s.switches ∧
      s1.cpu = s.cpu ∧ s1.memory = s.memory ∧ s1.next_id = s.next_id ∧
      (∀ p, p ≠ cur → s1.heap p = s.heap p) ∧
      s1.heap cur
        = some { tc with status := if tc.status = RUNNING then READY else tc.status } := by
  have hpick : wait_pick 0 s = some none := by simp [wait_pick]
  refine ⟨hpick, demoted s cur tc, ?_, rfl, rfl, rfl, rfl, rfl, rfl, ?_, ?_⟩
  · unfold grn_wait
    rw [hpick, demote_current_eq s cur tc hcur hc]
    rfl
  · intro p hp
    simp [demoted, hp]
  · simp [demoted]

/-- Witness of `grn_wait_zero_never_schedules`: three threads, two of them
READY. -/
theorem grn_wait_zero_never_schedules_witness :
    three_threads.current = some 1 ∧ three_threads.heap 1 = some (tcb 0 RUNNING 0) ∧
    (wait_pick 0 three_threads = some none ∧
    ∃ s1, grn_wait 0 three_threads = some (-1, s1) ∧
      s1.threads = three_threads.threads ∧ s1.current = three_threads.current ∧
      s1.switches = three_threads.switches ∧
      s1.cpu = three_threads.cpu ∧ s1.memory = three_threads.memory ∧
      s1.next_id = three_threads.next_id ∧
      (∀ p, p ≠ 1 → s1.heap p = three_threads.heap p) ∧
      s1.heap 1
        = some { tcb 0 RUNNING 0 with
                 status := if (tcb 0 RUNNING 0).status = RUNNING then READY
                           else (tcb 0 RUNNING 0).status }) :=
  ⟨rfl, rfl, grn_wait_zero_never_schedules three_threads 1 (tcb 0 RUNNING 0) rfl rfl⟩

theorem grn_yield_total (condition : Int) (s : floral_state) (hwf : wf s) :
    ∃ ret s1, grn_yield condition s = some (ret, s1) := by
  obtain ⟨cur, tc, hcur, _, hc⟩ := wf_current s hwf
  cases hy : yield_choice condition s cur with
  | none => exact ⟨-1, _, grn_yield_fail_eq condition s cur tc hwf hcur hc hy⟩
  | some n =>
    obtain ⟨_, h2, tn, h3, _⟩ := yield_choice_some condition s cur n hwf hcur hy
    exact ⟨0, _, grn_yield_ok_eq condition s cur n tc tn hwf hcur hc hy h3 h2⟩

/-- C13: for a nonzero condition `c`, `grn_wait(c)` is `grn_yield(0)`: from
every state the two calls give the same outcome, and on a well-formed state
both return, with the same return value and the same final state (chosen
thread, statuses, `current`, ring order, context switch made).  The tag of the
candidate plays no role and the place of the assignment to `current` makes no
difference. -/
theorem grn_wait_eq_grn_yield_zero (condition : Int) (hc : condition ≠ 0) (s : floral_state) :
    grn_wait condition s = grn_yield 0 s ∧
    (wf s → ∃ ret s1, grn_yield 0 s = some (ret, s1) ∧ grn_wait condition s = some (ret, s1)) := by
  have hpick : wait_pick condition s = yield_pick 0 s := by
    simp [wait_pick, yield_pick, hc]
  have heq : grn_wait condition s = grn_yield 0 s := by
    unfold grn_wait grn_yield
    rw [hpick]
    rfl
  refine ⟨heq, ?_⟩
  intro hwf
  obtain ⟨ret, s1, h⟩ := grn_yield_total 0 s hwf
  exact ⟨ret, s1, h, heq.trans h⟩

/-- Witness of `grn_wait_eq_grn_yield_zero`: the condition 5 and three
threads, two of them READY. -/
theorem grn_wait_eq_grn_yield_zero_witness :
    (5 : Int) ≠ 0 ∧ wf three_threads ∧
    grn_wait 5 three_threads = grn_yield 0 three_threads ∧
    ∃ ret s1, grn_yield 0 three_threads = some (ret, s1) ∧
      grn_wait 5 three_threads = some (ret, s1) :=
  ⟨by decide, ⟨by decide, by decide, 1, rfl, by decide⟩,
    (grn_wait_eq_grn_yield_zero 5 (by decide) three_threads).1,
    (grn_wait_eq_grn_yield_zero 5 (by decide) three_threads).2
      ⟨by decide, by decide, 1, rfl, by decide⟩⟩

theorem grn_wait_total (condition : Int) (s : floral_state) (hwf : wf s) :
    ∃ ret s1, grn_wait condition s = some (ret, s1) := by
  obtain ⟨cur, tc, hcur, hmem, hc⟩ := wf_current s hwf
  cases hy : (if condition ≠ 0 then
      last_match (fun t => decide (t.status = READY)) s (ring_after s.threads cur) none
      else none) with
  | none => exact ⟨-1, _, grn_wait_fail_eq condition s cur tc hwf hcur hc hy⟩
  | some n =>
    have hl : last_match (fun t => decide (t.status = READY)) s (ring_after s.threads cur) none
        = some n := by
      by_cases hc0 : condition = 0
      · simp [hc0] at hy
      · simpa [hc0] using hy
    obtain ⟨h1, tn, h3, _⟩ := last_match_some _ s _ n hl
    rw [mem_ring_after s.threads cur n hwf.1 hmem] at h1
    exact ⟨0, _, grn_wait_ok_eq condition s cur n tc tn hwf hcur hc hy h3 h1.2⟩

/-! ## Theorems: the ring after a call -/

theorem filter_ne_erase_append (l : List Ptr) (n : Ptr) (hn : l.Nodup) :
    (l.erase n ++ [n]).filter (fun q => decide (q ≠ n)) = l.filter (fun q => decide (q ≠ n)) := by
  rw [List.filter_append, hn.erase_eq_filter]
  simp only [List.filter_filter, List.filter_cons, List.filter_nil, ne_eq, not_true_eq_false,
    decide_False, Bool.false_eq_true, if_false, List.append_nil]
  apply List.filter_congr
  intro a _
  by_cases h : a = n <;> simp [h]

theorem ring_moved_of_cases (s s1 : floral_state) (ret : Int) (cur : Ptr) (tc : grn_thread)
    (hwf : wf s)
    (h : (ret = -1 ∧ s1 = demoted s cur tc) ∨
      (ret = 0 ∧ ∃ n tn, n ∈ s.threads ∧ n ≠ cur ∧ s.heap n = some tn ∧ tn.status = READY ∧
        s1 = switched s cur n tc tn)) :
    ring_moved_to_tail s ret s1 := by
  rcases h with ⟨hr, rfl⟩ | ⟨hr, n, tn, hn, _, _, _, rfl⟩
  · refine ⟨Or.inr hr, fun p => Iff.rfl, fun _ => rfl, ?_⟩
    intro h0; rw [hr] at h0; cases h0
  · refine ⟨Or.inl hr, fun p => mem_switched s cur n tc tn p hn, ?_, ?_⟩
    · intro h0; rw [hr] at h0; cases h0
    · intro _
      exact ⟨n, rfl, hn, rfl, filter_ne_erase_append s.threads n hwf.1⟩

/-- C15: on a well-formed state `grn_yield(c)` and `grn_wait(c)` both return,
and neither loses a thread: the ring holds the same TCBs after the call as
before; when the call fails (-1) the ring is unchanged; when it succeeds (0)
the ring is the old one with the chosen thread erased from its place and
appended at the tail, the other TCBs in their old order. -/
theorem ring_keeps_all_threads (condition : Int) (s : floral_state) (hwf : wf s) :
    (∃ ret s1, grn_yield condition s = some (ret, s1) ∧ ring_moved_to_tail s ret s1) ∧
    (∃ ret s1, grn_wait condition s = some (ret, s1) ∧ ring_moved_to_tail s ret s1) := by
  obtain ⟨cur, tc, hcur, _, hc⟩ := wf_current s hwf
  constructor
  · obtain ⟨ret, s1, h⟩ := grn_yield_total condition s hwf
    exact ⟨ret, s1, h, ring_moved_of_cases s s1 ret cur tc hwf
      (grn_yield_cases condition ret s s1 cur tc hwf hcur hc h)⟩
  · obtain ⟨ret, s1, h⟩ := grn_wait_total condition s hwf
    exact ⟨ret, s1, h, ring_moved_of_cases s s1 ret cur tc hwf
      (grn_wait_cases condition ret s s1 cur tc hwf hcur hc h)⟩

/-- Witness of `ring_keeps_all_threads`: three threads, two of them READY. -/
theorem ring_keeps_all_threads_witness :
    wf three_threads ∧
    ((∃ ret s1, grn_yield 7 three_threads = some (ret, s1) ∧
        ring_moved_to_tail three_threads ret s1) ∧
     (∃ ret s1, grn_wait 7 three_threads = some (ret, s1) ∧
        ring_moved_to_tail three_threads ret s1)) :=
  ⟨⟨by decide, by decide, 1, rfl, by decide⟩,
    ring_keeps_all_threads 7 three_threads ⟨by decide, by decide, 1, rfl, by decide⟩⟩

/-! ## Theorems: zombies -/

theorem zombies_kept_demoted (s : floral_state) (cur : Ptr) (tc : grn_thread)
    (hc : s.heap cur = some tc) : zombies_kept s (demoted s cur tc) := by
  intro p hp
  refine ⟨?_, fun h => h⟩
  by_cases h : p = cur
  · subst h
    have hz : tc.status = ZOMBIE := by simpa [status_of, hc] using hp
    simp [status_of, demoted, hz]
  · simpa [status_of, demoted, h] using hp

theorem zombies_kept_switched (s : floral_state) (cur n : Ptr) (tc tn : grn_thread)
    (hc : s.heap cur = some tc) (hn : s.heap n = some tn) (hr : tn.status = READY) :
    zombies_kept s (switched s cur n tc tn) := by
  intro p hp
  have hpn : p ≠ n := by
    intro e
    subst e
    simp [status_of, hn, hr] at hp
  refine ⟨?_, ?_⟩
  · by_cases h : p = cur
    · subst h
      have hz : tc.status = ZOMBIE := by simpa [status_of, hc] using hp
      simp [status_of, switched, hpn, hz]
    · simpa [status_of, switched, hpn, h] using hp
  · intro h
    have : n = p := Option.some.inj h
    exact absurd this.symm hpn

theorem zombies_kept_of_cases (s s1 : floral_state) (ret : Int) (cur : Ptr) (tc : grn_thread)
    (hc : s.heap cur = some tc)
    (h : (ret = -1 ∧ s1 = demoted s cur tc) ∨
      (ret = 0 ∧ ∃ n tn, n ∈ s.threads ∧ n ≠ cur ∧ s.heap n = some tn ∧ tn.status = READY ∧
        s1 = switched s cur n tc tn)) :
    (ret = 0 → ∃ n, s1.current = some n ∧ status_of s n = some READY) ∧ zombies_kept s s1 := by
  rcases h with ⟨hr, rfl⟩ | ⟨_, n, tn, _, _, hn, hrd, rfl⟩
  · refine ⟨?_, zombies_kept_demoted s cur tc hc⟩
    intro h0; rw [hr] at h0; cases h0
  · refine ⟨fun _ => ⟨n, rfl, by simp [status_of, hn, hrd]⟩,
      zombies_kept_switched s cur n tc tn hc hn hrd⟩

theorem wf_set_status (s s1 : floral_state) (p : Ptr) (st : grn_status) (hwf : wf s)
    (h : set_status p st s = some s1) : wf s1 := by
  unfold set_status at h
  cases hp : s.heap p with
  | none => simp [hp] at h
  | some t =>
    simp only [hp, Option.some.injEq] at h
    subst h
    obtain ⟨hn, hl, c, hc, hm⟩ := hwf
    refine ⟨hn, ?_, c, hc, hm⟩
    intro q hq
    by_cases hqp : q = p
    · simp [hqp]
    · simpa [hqp] using hl q hq

theorem set_status_spec (s s1 : floral_state) (p : Ptr) (st : grn_status)
    (h : set_status p st s = some s1) :
    s1.current = s.current ∧ status_of s1 p = some st ∧
      ∀ q, q ≠ p → status_of s1 q = status_of s q := by
  unfold set_status at h
  cases hp : s.heap p with
  | none => simp [hp] at h
  | some t =>
    simp only [hp, Option.some.injEq] at h
    subst h
    refine ⟨rfl, by simp [status_of], ?_⟩
    intro q hq
    simp [status_of, hq]

theorem zombies_kept_grn_yield (condition ret : Int) (s s1 : floral_state) (hwf : wf s)
    (h : grn_yield condition s = some (ret, s1)) :
    (ret = 0 → ∃ n, s1.current = some n ∧ status_of s n = some READY) ∧ zombies_kept s s1 := by
  obtain ⟨cur, tc, hcur, _, hc⟩ := wf_current s hwf
  exact zombies_kept_of_cases s s1 ret cur tc hc
    (grn_yield_cases condition ret s s1 cur tc hwf hcur hc h)

theorem zombies_kept_grn_wait (condition ret : Int) (s s1 : floral_state) (hwf : wf s)
    (h : grn_wait condition s = some (ret, s1)) :
    (ret = 0 → ∃ n, s1.current = some n ∧ status_of s n = some READY) ∧ zombies_kept s s1 := by
  obtain ⟨cur, tc, hcur, _, hc⟩ := wf_current s hwf
  exact zombies_kept_of_cases s s1 ret cur tc hc
    (grn_wait_cases condition ret s s1 cur tc hwf hcur hc h)

theorem zombies_kept_grn_exit (s s1 : floral_state) (hwf : wf s)
    (h : grn_exit s = exit_result.returned s1) : zombies_kept s s1 := by
  unfold grn_exit at h
  cases hcur : s.current with
  | none => simp [hcur] at h
  | some cur =>
    cases hc : s.heap cur with
    | none => simp [hcur, hc] at h
    | some t =>
      simp only [hcur, hc] at h
      by_cases hid : t.id = 0
      · simp [hid] at h
      · simp only [hid, if_false] at h
        cases hz : set_status cur ZOMBIE s with
        | none => simp [hz] at h
        | some sz =>
          simp only [hz] at h
          have hwfz := wf_set_status s sz cur ZOMBIE hwf hz
          cases hy : grn_yield 0 sz with
          | none => simp [hy] at h
          | some r =>
            obtain ⟨ret, s2⟩ := r
            simp only [hy, exit_result.returned.injEq] at h
            subst h
            have hk := (zombies_kept_grn_yield 0 ret sz s2 hwfz hy).2
            obtain ⟨hzc, hzp, hzo⟩ := set_status_spec s sz cur ZOMBIE hz
            intro p hp
            have hp2 : status_of sz p = some ZOMBIE := by
              by_cases hpc : p = cur
              · rw [hpc]; exact hzp
              · rw [hzo p hpc]; exact hp
            obtain ⟨h1, h2⟩ := hk p hp2
            exact ⟨h1, fun h3 => by rw [← hzc]; exact h2 h3⟩

theorem zombies_kept_grn_spawn_begin (STACK_SIZE start_thread fn : Nat) (p : Ptr) (stk : Nat)
    (n : Ptr) (s s1 : floral_state)
    (h : grn_spawn_begin STACK_SIZE start_thread fn p stk s = some (n, s1)) :
    zombies_kept s s1 := by
  obtain ⟨hp, _, _, hcur, _, hso⟩ :=
    grn_spawn_begin_spec STACK_SIZE start_thread fn p stk n s s1 h
  intro q hq
  have hqp : q ≠ p := by
    intro e
    subst e
    simp [status_of, hp] at hq
  refine ⟨by rw [hso q hqp]; exact hq, fun h3 => by rw [← hcur]; exact h3⟩

/-- C12: a ZOMBIE thread is never chosen again.  On a well-formed state
`grn_yield(c)` and `grn_wait(c)` both return; the thread a successful call
makes `current` was READY before the call; and a TCB that was ZOMBIE before a
call of `grn_yield`, `grn_wait`, `grn_exit` or `grn_spawn` is ZOMBIE after it
and is `current` after it only if it was before. -/
theorem zombie_never_chosen (condition : Int) (s : floral_state) (hwf : wf s) :
    (∃ ret s1, grn_yield condition s = some (ret, s1) ∧
      (ret = 0 → ∃ n, s1.current = some n ∧ status_of s n = some READY) ∧ zombies_kept s s1) ∧
    (∃ ret s1, grn_wait condition s = some (ret, s1) ∧
      (ret = 0 → ∃ n, s1.current = some n ∧ status_of s n = some READY) ∧ zombies_kept s s1) ∧
    (∀ s1, grn_exit s = exit_result.returned s1 → zombies_kept s s1) ∧
    (∀ STACK_SIZE start_thread fn p stk n s1,
      grn_spawn_begin STACK_SIZE start_thread fn p stk s = some (n, s1) → zombies_kept s s1) := by
  refine ⟨?_, ?_, ?_, ?_⟩
  · obtain ⟨ret, s1, h⟩ := grn_yield_total condition s hwf
    exact ⟨ret, s1, h, zombies_kept_grn_yield condition ret s s1 hwf h⟩
  · obtain ⟨ret, s1, h⟩ := grn_wait_total condition s hwf
    exact ⟨ret, s1, h, zombies_kept_grn_wait condition ret s s1 hwf h⟩
  · intro s1 h
    exact zombies_kept_grn_exit s s1 hwf h
  · intro STACK_SIZE start_thread fn p stk n s1 h
    exact zombies_kept_grn_spawn_begin STACK_SIZE start_thread fn p stk n s s1 h

/-- Witness of `zombie_never_chosen`: the bootstrap thread RUNNING and one
ZOMBIE in the ring. -/
theorem zombie_never_chosen_witness :
    wf with_zombie ∧
    ((∃ ret s1, grn_yield 0 with_zombie = some (ret, s1) ∧
      (ret = 0 → ∃ n, s1.current = some n ∧ status_of with_zombie n = some READY) ∧
        zombies_kept with_zombie s1) ∧
    (∃ ret s1, grn_wait 0 with_zombie = some (ret, s1) ∧
      (ret = 0 → ∃ n, s1.current = some n ∧ status_of with_zombie n = some READY) ∧
        zombies_kept with_zombie s1) ∧
    (∀ s1, grn_exit with_zombie = exit_result.returned s1 → zombies_kept with_zombie s1) ∧
    (∀ STACK_SIZE start_thread fn p stk n s1,
      grn_spawn_begin STACK_SIZE start_thread fn p stk with_zombie = some (n, s1) →
        zombies_kept with_zombie s1)) :=
  ⟨⟨by decide, by decide, 1, rfl, by decide⟩,
    zombie_never_chosen 0 with_zombie ⟨by decide, by decide, 1, rfl, by decide⟩⟩

/-! ## Theorems: `grn_gc` without zombies -/

theorem succ_of_mem (hd : Ptr) (l : List Ptr) (p d : Ptr) (h : succ_of hd l p = some d) :
    d ∈ l ∨ d = hd := by
  induction l with
  | nil => simp [succ_of] at h
  | cons x rest ih =>
    unfold succ_of at h
    by_cases hx : x = p
    · simp only [hx, if_true] at h
      cases rest with
      | nil =>
        simp only [Option.some.injEq] at h
        exact Or.inr h.symm
      | cons y r =>
        simp only [Option.some.injEq] at h
        left; simp [h]
    · simp only [hx, if_false] at h
      rcases ih h with h1 | h1
      · left; exact List.mem_cons_of_mem _ h1
      · right; exact h1

theorem next_thread_mem (s : floral_state) (c d : Ptr) (h : next_thread s c = some d) :
    d ∈ s.threads := by
  unfold next_thread at h
  cases hc : s.heap c with
  | none => simp [hc] at h
  | some t =>
    simp only [hc] at h
    cases hl : s.threads with
    | nil => simp [hl] at h
    | cons hd rest =>
      simp only [hl] at h
      rcases succ_of_mem hd (hd :: rest) c d h with h1 | h1
      · exact h1
      · simp [h1]

theorem gc_loop_eq_scan (pred : grn_thread → Bool) (s : floral_state)
    (hz : ∀ p ∈ s.threads, status_of s p ≠ some ZOMBIE) :
    ∀ (fuel : Nat) (c : Ptr) (acc : Option Ptr),
      gc_loop fuel c s = (scan_ring pred s fuel c acc).map (fun _ => s) := by
  intro fuel
  induction fuel with
  | zero => intro c acc; rfl
  | succ k ih =>
    intro c acc
    unfold gc_loop scan_ring
    cases hn : next_thread s c with
    | none => rfl
    | some d =>
      simp only
      by_cases hd : some d = s.current
      · simp [hd]
      · simp only [hd, if_false]
        cases ht : s.heap d with
        | none => rfl
        | some t =>
          simp only
          have hnz : t.status ≠ ZOMBIE := by
            intro e
            exact hz d (next_thread_mem s c d hn) (by simp [status_of, ht, e])
          simp only [hnz, if_false]
          exact ih d _

theorem grn_gc_no_zombie (s : floral_state) (hwf : wf s)
    (hz : ∀ p ∈ s.threads, status_of s p ≠ some ZOMBIE) : grn_gc s = some s := by
  obtain ⟨cur, _, hcur, _, _⟩ := wf_current s hwf
  unfold grn_gc grn_current
  simp only [hcur, Option.bind_eq_bind, Option.some_bind]
  rw [gc_loop_eq_scan (fun _ => false) s hz s.threads.length cur none,
    scan_ring_eq (fun _ => false) s cur hwf hcur]
  rfl

/-- C16: when no TCB of the ring is ZOMBIE, `grn_gc` ends, destroys nothing
and leaves the whole state (the ring, every TCB, `current`) as it was; so
calling it twice in a row gives the same state as calling it once. -/
theorem grn_gc_noop_without_zombies (s : floral_state) (hwf : wf s)
    (hz : ∀ p ∈ s.threads, status_of s p ≠ some ZOMBIE) :
    grn_gc s = some s ∧ (grn_gc s).bind grn_gc = grn_gc s := by
  have h := grn_gc_no_zombie s hwf hz
  refine ⟨h, ?_⟩
  rw [h]
  exact h

/-- Witness of `grn_gc_noop_without_zombies`: three threads, one RUNNING and
two READY. -/
theorem grn_gc_noop_without_zombies_witness :
    wf three_threads ∧
    (∀ p ∈ three_threads.threads, status_of three_threads p ≠ some ZOMBIE) ∧
    (grn_gc three_threads = some three_threads ∧
      (grn_gc three_threads).bind grn_gc = grn_gc three_threads) :=
  ⟨⟨by decide, by decide, 1, rfl, by decide⟩, by decide,
    grn_gc_noop_without_zombies three_threads ⟨by decide, by decide, 1, rfl, by decide⟩
      (by decide)⟩

/-! ## Theorems: the tie-break -/

theorem last_match_last_in (pred : grn_thread → Bool) (s : floral_state) (l : List Ptr) :
    ∀ (init : Option Ptr) (n : Ptr), last_match pred s l init = some n →
      last_in (fun q => ∃ t, s.heap q = some t ∧ pred t = true) l n ∨
      (init = some n ∧ ∀ q ∈ l, ¬ ∃ t, s.heap q = some t ∧ pred t = true) := by
  induction l with
  | nil =>
    intro init n h
    right
    exact ⟨by simpa [last_match] using h, by simp⟩
  | cons y l ih =>
    intro init n h
    cases hy : s.heap y with
    | none =>
      have h2 : last_match pred s l init = some n := by
        simpa [last_match, hy] using h
      rcases ih init n h2 with ⟨A, B, hl, hp, hB⟩ | ⟨hi, hno⟩
      · left; exact ⟨y :: A, B, by simp [hl], hp, hB⟩
      · right
        refine ⟨hi, ?_⟩
        intro q hq
        rcases List.mem_cons.1 hq with rfl | hq
        · rintro ⟨t, ht, _⟩
          rw [hy] at ht; cases ht
        · exact hno q hq
    | some t =>
      rw [last_match_cons pred s y l init t hy] at h
      rcases ih _ n h with ⟨A, B, hl, hp, hB⟩ | ⟨hi, hno⟩
      · left; exact ⟨y :: A, B, by simp [hl], hp, hB⟩
      · by_cases hpt : pred t = true
        · simp only [hpt, if_true, Option.some.injEq] at hi
          subst hi
          left
          exact ⟨[], l, rfl, ⟨t, hy, hpt⟩, hno⟩
        · simp only [hpt, if_false] at hi
          right
          refine ⟨hi, ?_⟩
          intro q hq
          rcases List.mem_cons.1 hq with rfl | hq
          · rintro ⟨t2, ht2, hp2⟩
            rw [hy] at ht2
            cases ht2
            exact hpt hp2
          · exact hno q hq

theorem last_in_congr (P Q : Ptr → Prop) (l : List Ptr) (n : Ptr) (h : ∀ q, P q ↔ Q q)
    (hl : last_in P l n) : last_in Q l n := by
  obtain ⟨A, B, e, hp, hB⟩ := hl
  exact ⟨A, B, e, (h n).1 hp, fun q hq hQ => hB q hq ((h q).2 hQ)⟩

theorem ready_in_iff (s : floral_state) (q : Ptr) :
    (∃ t, s.heap q = some t ∧ decide (t.status = READY) = true) ↔ ready_in s q := by
  unfold ready_in status_of
  cases s.heap q with
  | none => simp
  | some t => simp

theorem signalled_in_iff (condition : Int) (s : floral_state) (q : Ptr) :
    (∃ t, s.heap q = some t ∧ decide (t.condition = condition ∧ t.status = READY) = true)
      ↔ signalled_in condition s q := by
  unfold signalled_in status_of condition_of
  cases s.heap q with
  | none => simp
  | some t => simp [and_comm]

theorem last_match_ready (s : floral_state) (l : List Ptr) (n : Ptr)
    (h : last_match (fun t => decide (t.status = READY)) s l none = some n) :
    last_in (ready_in s) l n := by
  rcases last_match_last_in _ s l none n h with h1 | ⟨h1, _⟩
  · exact last_in_congr _ _ l n (ready_in_iff s) h1
  · cases h1

theorem last_match_signalled (condition : Int) (s : floral_state) (l : List Ptr) (n : Ptr)
    (h : last_match (fun t => decide (t.condition = condition ∧ t.status = READY)) s l none
      = some n) :
    last_in (signalled_in condition s) l n := by
  rcases last_match_last_in _ s l none n h with h1 | ⟨h1, _⟩
  · exact last_in_congr _ _ l n (signalled_in_iff condition s) h1
  · cases h1

theorem yield_choice_last (condition : Int) (s : floral_state) (cur n : Ptr)
    (h : yield_choice condition s cur = some n) :
    ((condition ≠ 0 ∧ ∃ q ∈ ring_after s.threads cur, signalled_in condition s q) →
      last_in (signalled_in condition s) (ring_after s.threads cur) n) ∧
    (¬ (condition ≠ 0 ∧ ∃ q ∈ ring_after s.threads cur, signalled_in condition s q) →
      last_in (ready_in s) (ring_after s.threads cur) n) := by
  unfold yield_choice at h
  by_cases hc : condition = 0
  · simp only [hc, ne_eq, not_true_eq_false, if_false] at h
    refine ⟨fun h1 => absurd hc h1.1, fun _ => last_match_ready s _ n h⟩
  · simp only [hc, ne_eq, not_false_eq_true, if_true] at h
    cases hm : last_match (fun t => decide (t.condition = condition ∧ t.status = READY)) s
        (ring_after s.threads cur) none with
    | none =>
      simp only [hm] at h
      refine ⟨?_, fun _ => last_match_ready s _ n h⟩
      rintro ⟨_, q, hq, hs⟩
      obtain ⟨t, ht, hp⟩ := (signalled_in_iff condition s q).2 hs
      have := last_match_found (fun t => decide (t.condition = condition ∧ t.status = READY))
        s _ none q t hq ht hp
      rw [hm] at this
      cases this
    | some m =>
      simp only [hm, Option.some.injEq] at h
      subst h
      have hl := last_match_signalled condition s _ m hm
      refine ⟨fun _ => hl, ?_⟩
      intro hno
      exfalso
      obtain ⟨A, B, e, hp, _⟩ := hl
      exact hno ⟨hc, m, by rw [e]; simp, hp⟩
theorem next_chain_infix (s : floral_state) (hn : s.threads.Nodup)
    (hl : ∀ p ∈ s.threads, (s.heap p).isSome = true) :
    ∀ (M A B : List Ptr), s.threads = A ++ M ++ B →
      List.Chain' (fun a b => next_thread s a = some b) M := by
  intro M
  induction M with
  | nil => intro A B _; exact List.chain'_nil
  | cons x M ih =>
    intro A B h
    cases M with
    | nil => exact List.chain'_singleton x
    | cons y M2 =>
      have hx : x ∈ s.threads := by rw [h]; simp
      obtain ⟨t, ht⟩ := Option.isSome_iff_exists.1 (hl x hx)
      have hr : s.threads = A ++ x :: y :: (M2 ++ B) := by rw [h]; simp
      have hA : x ∉ A := by
        rw [hr] at hn
        intro hm
        exact (List.nodup_append.1 hn).2.2 hm (by simp)
      refine List.chain'_cons.2 ⟨next_thread_mid s A (M2 ++ B) x y t ht hr hA, ?_⟩
      exact ih (A ++ [x]) B (by rw [h]; simp)

theorem next_chain_ring (s : floral_state) (cur : Ptr) (hwf : wf s)
    (hcur : s.current = some cur) :
    List.Chain' (fun a b => next_thread s a = some b)
      (cur :: ring_after s.threads cur ++ [cur]) := by
  obtain ⟨hn, hl, c, hc, hmem⟩ := hwf
  rw [hcur] at hc
  cases hc
  obtain ⟨pre, post, hring⟩ := List.append_of_mem hmem
  have hpre : cur ∉ pre := by
    intro h
    rw [hring] at hn
    exact (List.nodup_append.1 hn).2.2 h (by simp)
  rw [hring, ring_after_split pre post cur hpre]
  have h1 := next_chain_infix s hn hl (cur :: post) pre [] (by rw [hring]; simp)
  have h2 := next_chain_infix s hn hl (pre ++ [cur]) [] post (by rw [hring]; simp)
  have h3 : List.Chain' (fun a b => next_thread s a = some b)
      ((cur :: post) ++ (pre ++ [cur])) := by
    refine List.Chain'.append h1 h2 ?_
    intro x hx y hy
    obtain ⟨C, hC⟩ := List.getLast?_eq_some_iff.1 (Option.mem_def.1 hx)
    obtain ⟨D, hD⟩ := List.head?_eq_some_iff.1 (Option.mem_def.1 hy)
    have hxm : x ∈ s.threads := by
      rw [hring]
      have : x ∈ cur :: post := by rw [hC]; simp
      exact List.mem_append_right _ this
    obtain ⟨t, ht⟩ := Option.isSome_iff_exists.1 (hl x hxm)
    have hr : s.threads = (pre ++ C) ++ [x] := by
      rw [hring, hC]; simp
    have hA : x ∉ pre ++ C := by
      rw [hr] at hn
      intro hm
      exact (List.nodup_append.1 hn).2.2 hm (by simp)
    have hhd : s.threads = y :: (D ++ post) := by
      rw [hring]
      have : pre ++ cur :: post = (pre ++ [cur]) ++ post := by simp
      rw [this, hD]; simp
    exact next_thread_last s (pre ++ C) x y _ t ht hr hhd hA
  simpa using h3

theorem last_match_congr (pred : grn_thread → Bool) (s s2 : floral_state) (l : List Ptr)
    (h : ∀ p ∈ l, (s2.heap p).map pred = (s.heap p).map pred) :
    ∀ init, last_match pred s2 l init = last_match pred s l init := by
  induction l with
  | nil => intro init; rfl
  | cons y l ih =>
    intro init
    have hy := h y (List.mem_cons_self y l)
    have ih2 := ih (fun p hp => h p (List.mem_cons_of_mem y hp))
    cases h1 : s.heap y with
    | none =>
      cases h2 : s2.heap y with
      | none =>
        have e1 : last_match pred s (y :: l) init = last_match pred s l init := by
          simp [last_match, h1]
        have e2 : last_match pred s2 (y :: l) init = last_match pred s2 l init := by
          simp [last_match, h2]
        rw [e1, e2]; exact ih2 init
      | some t2 => rw [h1, h2] at hy; cases hy
    | some t =>
      cases h2 : s2.heap y with
      | none => rw [h1, h2] at hy; cases hy
      | some t2 =>
        rw [h1, h2] at hy
        have hp : pred t2 = pred t := by simpa using hy
        rw [last_match_cons pred s y l init t h1, last_match_cons pred s2 y l init t2 h2, hp]
        exact ih2 _
theorem pred_map_congr (pred : grn_thread → Bool) (s s2 : floral_state) (p : Ptr)
    (hpred : ∀ t t2 : grn_thread, t2.status = t.status → t2.condition = t.condition →
      pred t2 = pred t)
    (h : status_of s2 p = status_of s p ∧ condition_of s2 p = condition_of s p) :
    (s2.heap p).map pred = (s.heap p).map pred := by
  obtain ⟨h1, h2⟩ := h
  unfold status_of at h1
  unfold condition_of at h2
  cases e : s.heap p with
  | none =>
    cases e2 : s2.heap p with
    | none => rfl
    | some t2 => rw [e, e2] at h1; cases h1
  | some t =>
    cases e2 : s2.heap p with
    | none => rw [e, e2] at h1; cases h1
    | some t2 =>
      rw [e, e2] at h1 h2
      simp only [Option.map_some', Option.some.injEq] at h1 h2
      simp [hpred t t2 h1 h2]

theorem picks_congr (condition : Int) (s s2 : floral_state) (hwf : wf s)
    (ht : s2.threads = s.threads) (hc : s2.current = s.current)
    (hs : ∀ p ∈ s.threads, status_of s2 p = status_of s p ∧
      condition_of s2 p = condition_of s p) :
    yield_pick condition s2 = yield_pick condition s ∧
      wait_pick condition s2 = wait_pick condition s := by
  obtain ⟨cur, tc, hcur, hmem, _⟩ := wf_current s hwf
  have hwf2 : wf s2 := by
    obtain ⟨hn, hl, _⟩ := hwf
    refine ⟨by rw [ht]; exact hn, ?_, cur, by rw [hc]; exact hcur, by rw [ht]; exact hmem⟩
    intro p hp
    rw [ht] at hp
    have h1 := (hs p hp).1
    have h2 := hl p hp
    unfold status_of at h1
    cases e : s2.heap p with
    | none =>
      rw [e] at h1
      obtain ⟨t, ht2⟩ := Option.isSome_iff_exists.1 h2
      rw [ht2] at h1
      cases h1
    | some t => rfl
  have hcur2 : s2.current = some cur := by rw [hc]; exact hcur
  have hsub : ∀ p ∈ ring_after s.threads cur, p ∈ s.threads := fun p hp =>
    ((mem_ring_after s.threads cur p hwf.1 hmem).1 hp).1
  have e1 : last_match (fun t => decide (t.status = READY)) s2 (ring_after s.threads cur) none
      = last_match (fun t => decide (t.status = READY)) s (ring_after s.threads cur) none :=
    last_match_congr _ s s2 _ (fun p hp => pred_map_congr _ s s2 p
      (fun t t2 h1 _ => by simp [h1]) (hs p (hsub p hp))) none
  have e2 : last_match (fun t => decide (t.condition = condition ∧ t.status = READY)) s2
        (ring_after s.threads cur) none
      = last_match (fun t => decide (t.condition = condition ∧ t.status = READY)) s
        (ring_after s.threads cur) none :=
    last_match_congr _ s s2 _ (fun p hp => pred_map_congr _ s s2 p
      (fun t t2 h1 h2 => by simp [h1, h2]) (hs p (hsub p hp))) none
  constructor
  · rw [yield_pick_eq condition s2 cur hwf2 hcur2, yield_pick_eq condition s cur hwf hcur]
    unfold yield_choice
    rw [ht, e1, e2]
  · rw [wait_pick_eq condition s2 cur hwf2 hcur2, wait_pick_eq condition s cur hwf hcur]
    rw [ht, e1]

/-- C17: the tie-break of the code.  From `current` the successor links of the
ring lead through the TCBs `ring_after s.threads cur` and back to `current`.
The thread a successful `grn_yield(c)` makes `current` is the last one of that
traversal that is READY with tag `c`, when `c` is nonzero and there is such a
thread, and otherwise the last one that is READY; the thread a successful
`grn_wait(c)` with nonzero `c` makes `current` is the last one that is READY.
Both calls succeed whenever the traversal meets a READY thread, and the choice
is a function of the ring order, `current`, the statuses and the tags. -/
theorem tie_break_is_last_match (condition : Int) (s : floral_state) (cur : Ptr)
    (hwf : wf s) (hcur : s.current = some cur) :
    List.Chain' (fun a b => next_thread s a = some b)
      (cur :: ring_after s.threads cur ++ [cur]) ∧
    (∀ s1, grn_yield condition s = some (0, s1) → ∃ n, s1.current = some n ∧
      ((condition ≠ 0 ∧ ∃ q ∈ ring_after s.threads cur, signalled_in condition s q) →
        last_in (signalled_in condition s) (ring_after s.threads cur) n) ∧
      (¬ (condition ≠ 0 ∧ ∃ q ∈ ring_after s.threads cur, signalled_in condition s q) →
        last_in (ready_in s) (ring_after s.threads cur) n)) ∧
    (condition ≠ 0 → ∀ s1, grn_wait condition s = some (0, s1) →
      ∃ n, s1.current = some n ∧ last_in (ready_in s) (ring_after s.threads cur) n) ∧
    ((∃ q ∈ ring_after s.threads cur, ready_in s q) →
      (∃ s1, grn_yield condition s = some (0, s1)) ∧
      (condition ≠ 0 → ∃ s1, grn_wait condition s = some (0, s1))) ∧
    (∀ s2, s2.threads = s.threads → s2.current = s.current →
      (∀ p ∈ s.threads, status_of s2 p = status_of s p ∧
        condition_of s2 p = condition_of s p) →
      yield_pick condition s2 = yield_pick condition s ∧
        wait_pick condition s2 = wait_pick condition s) := by
  obtain ⟨c2, tc, hcur2, hmem, hc⟩ := wf_current s hwf
  rw [hcur] at hcur2
  cases hcur2
  refine ⟨next_chain_ring s cur hwf hcur, ?_, ?_, ?_, ?_⟩
  · intro s1 h
    cases hy : yield_choice condition s cur with
    | none =>
      rw [grn_yield_fail_eq condition s cur tc hwf hcur hc hy] at h
      simp at h
    | some n =>
      obtain ⟨_, h2, tn, h3, _⟩ := yield_choice_some condition s cur n hwf hcur hy
      rw [grn_yield_ok_eq condition s cur n tc tn hwf hcur hc hy h3 h2] at h
      simp only [Option.some.injEq, Prod.mk.injEq, true_and] at h
      subst h
      exact ⟨n, rfl, yield_choice_last condition s cur n hy⟩
  · intro hc0 s1 h
    cases hy : (if condition ≠ 0 then
        last_match (fun t => decide (t.status = READY)) s (ring_after s.threads cur) none
        else none) with
    | none =>
      rw [grn_wait_fail_eq condition s cur tc hwf hcur hc hy] at h
      simp at h
    | some n =>
      have hl : last_match (fun t => decide (t.status = READY)) s (ring_after s.threads cur)
          none = some n := by simpa [hc0] using hy
      obtain ⟨h1, tn, h3, _⟩ := last_match_some _ s _ n hl
      rw [mem_ring_after s.threads cur n hwf.1 hmem] at h1
      rw [grn_wait_ok_eq condition s cur n tc tn hwf hcur hc hy h3 h1.2] at h
      simp only [Option.some.injEq, Prod.mk.injEq, true_and] at h
      subst h
      exact ⟨n, rfl, last_match_ready s _ n hl⟩
  · rintro ⟨q, hq, hr⟩
    obtain ⟨t, ht, hp⟩ := (ready_in_iff s q).2 hr
    have hq2 := (mem_ring_after s.threads cur q hwf.1 hmem).1 hq
    constructor
    · obtain ⟨n, hn⟩ := yield_choice_isSome condition s cur q t hwf hcur hq2.1 hq2.2 ht
        (by simpa using hp)
      obtain ⟨_, h2, tn, h3, _⟩ := yield_choice_some condition s cur n hwf hcur hn
      exact ⟨_, grn_yield_ok_eq condition s cur n tc tn hwf hcur hc hn h3 h2⟩
    · intro hc0
      have hf := last_match_found (fun t => decide (t.status = READY)) s _ none q t hq ht hp
      obtain ⟨n, hn⟩ := Option.isSome_iff_exists.1 hf
      have hy : (if condition ≠ 0 then
          last_match (fun t => decide (t.status = READY)) s (ring_after s.threads cur) none
          else none) = some n := by simpa [hc0] using hn
      obtain ⟨h1, tn, h3, _⟩ := last_match_some _ s _ n hn
      rw [mem_ring_after s.threads cur n hwf.1 hmem] at h1
      exact ⟨_, grn_wait_ok_eq condition s cur n tc tn hwf hcur hc hy h3 h1.2⟩
  · intro s2 ht hc2 hs
    exact picks_congr condition s s2 hwf ht hc2 hs

/-- Witness of `tie_break_is_last_match`: the signal 7 with two READY threads
of tag 7 in the ring. -/
theorem tie_break_is_last_match_witness :
    wf two_waiters ∧ two_waiters.current = some 1 ∧
    (List.Chain' (fun a b => next_thread two_waiters a = some b)
      (1 :: ring_after two_waiters.threads 1 ++ [1]) ∧
    (∀ s1, grn_yield 7 two_waiters = some (0, s1) → ∃ n, s1.current = some n ∧
      (((7 : Int) ≠ 0 ∧ ∃ q ∈ ring_after two_waiters.threads 1, signalled_in 7 two_waiters q) →
        last_in (signalled_in 7 two_waiters) (ring_after two_waiters.threads 1) n) ∧
      (¬ ((7 : Int) ≠ 0 ∧
          ∃ q ∈ ring_after two_waiters.threads 1, signalled_in 7 two_waiters q) →
        last_in (ready_in two_waiters) (ring_after two_waiters.threads 1) n)) ∧
    ((7 : Int) ≠ 0 → ∀ s1, grn_wait 7 two_waiters = some (0, s1) →
      ∃ n, s1.current = some n ∧
        last_in (ready_in two_waiters) (ring_after two_waiters.threads 1) n) ∧
    ((∃ q ∈ ring_after two_waiters.threads 1, ready_in two_waiters q) →
      (∃ s1, grn_yield 7 two_waiters = some (0, s1)) ∧
      ((7 : Int) ≠ 0 → ∃ s1, grn_wait 7 two_waiters = some (0, s1))) ∧
    (∀ s2, s2.threads = two_waiters.threads → s2.current = two_waiters.current →
      (∀ p ∈ two_waiters.threads, status_of s2 p = status_of two_waiters p ∧
        condition_of s2 p = condition_of two_waiters p) →
      yield_pick 7 s2 = yield_pick 7 two_waiters ∧
        wait_pick 7 s2 = wait_pick 7 two_waiters)) :=
  ⟨⟨by decide, by decide, 1, rfl, by decide⟩, rfl,
    tie_break_is_last_match 7 two_waiters 1 ⟨by decide, by decide, 1, rfl, by decide⟩ rfl⟩

/-! ## Theorems: the primed stack -/

theorem grn_spawn_begin_eq_prime (STACK_SIZE start_thread fn : Nat) (p : Ptr) (stk : Nat)
    (s : floral_state) :
    grn_spawn_begin STACK_SIZE start_thread fn p stk s
      = (grn_spawn_prime STACK_SIZE start_thread fn p stk s).bind (fun r =>
          (r.2.current.bind (fun cur => grn_context_switch cur r.1 r.2)).map
            (fun s6 => (r.1, s6))) := by
  unfold grn_spawn_begin grn_spawn_prime
  simp only [Option.bind_eq_bind, Option.pure_def, Option.map_eq_bind, Option.bind_assoc,
    Option.some_bind, Function.comp]

theorem load64_unfold (m : Nat → Nat) (a : Nat) :
    load64 m a = m (a + 0) + 256 * (m (a + 1) + 256 * (m (a + 2) + 256 * (m (a + 3) +
      256 * (m (a + 4) + 256 * (m (a + 5) + 256 * (m (a + 6) + 256 * (m (a + 7) + 256 * 0))))))) :=
  rfl

theorem memcpy64_inside (dst v : Nat) (m : Nat → Nat) (i : Nat) (h : i < 8) :
    memcpy64 dst v m (dst + i) = v / 256 ^ i % 256 := by
  unfold memcpy64
  have h1 : dst ≤ dst + i ∧ dst + i < dst + 8 := ⟨by omega, by omega⟩
  simp [h1]

theorem memcpy64_outside (dst v : Nat) (m : Nat → Nat) (a : Nat)
    (h : ¬ (dst ≤ a ∧ a < dst + 8)) : memcpy64 dst v m a = m a := by
  unfold memcpy64
  simp [h]

theorem load64_memcpy64 (dst v : Nat) (m : Nat → Nat) (hv : v < 2 ^ 64) :
    load64 (memcpy64 dst v m) dst = v := by
  rw [load64_unfold]
  rw [memcpy64_inside dst v m 0 (by omega), memcpy64_inside dst v m 1 (by omega),
    memcpy64_inside dst v m 2 (by omega), memcpy64_inside dst v m 3 (by omega),
    memcpy64_inside dst v m 4 (by omega), memcpy64_inside dst v m 5 (by omega),
    memcpy64_inside dst v m 6 (by omega), memcpy64_inside dst v m 7 (by omega)]
  norm_num at hv ⊢
  omega

theorem grn_spawn_prime_spec (STACK_SIZE start_thread fn : Nat) (p : Ptr) (stk : Nat)
    (s : floral_state) (hfresh : s.heap p = none) :
    ∃ s1, grn_spawn_prime STACK_SIZE start_thread fn p stk s = some (p, s1) ∧
      s1.heap p = some { id := s.next_id, status := READY, condition := 0,
                         context := { rsp := stk + STACK_SIZE - 8 - 8 }, stack := some stk } ∧
      s1.memory = memcpy64 (stk + STACK_SIZE - 8 - 8) start_thread
        (memcpy64 (stk + STACK_SIZE - 8) fn s.memory) ∧
      s1.threads = s.threads ++ [p] ∧ s1.current = s.current ∧
      s1.switches = s.switches ∧ s1.cpu = s.cpu ∧ (∀ q, q ≠ p → s1.heap q = s.heap q) := by
  simp only [grn_spawn_prime, grn_new_thread, hfresh, add_thread, set_status, set_rsp,
    Option.bind_eq_bind, Option.some_bind, if_true, Option.pure_def, Option.some.injEq,
    Prod.mk.injEq, true_and, exists_eq_left']
  intro q hq
  simp [hq]

/-- C18: the primed stack.  When the allocator returns a fresh TCB address
`p` and a stack block at `stk`, the block has at least 16 bytes and the two
addresses fit in 64 bits, lines 51-62 of `grn_spawn` leave the new TCB READY
with saved stack pointer `stk + STACK_SIZE - 16`; the 8 bytes there hold the
address of `start_thread` and the 8 bytes at `stk + STACK_SIZE - 8` hold `fn`;
the bytes written are those of `[stk + STACK_SIZE - 16, stk + STACK_SIZE)`,
which lies inside the stack block, every other byte of memory is unchanged,
and no context switch has been made yet. -/
theorem primed_stack_layout (STACK_SIZE start_thread fn : Nat) (p : Ptr) (stk : Nat)
    (s : floral_state) (hfresh : s.heap p = none) (hsize : 16 ≤ STACK_SIZE)
    (hfn : fn < 2 ^ 64) (hst : start_thread < 2 ^ 64) :
    ∃ s1 t, grn_spawn_prime STACK_SIZE start_thread fn p stk s = some (p, s1) ∧
      s1.heap p = some t ∧ t.status = READY ∧ t.stack = some stk ∧
      t.context.rsp = stk + STACK_SIZE - 16 ∧
      load64 s1.memory (stk + STACK_SIZE - 16) = start_thread ∧
      load64 s1.memory (stk + STACK_SIZE - 8) = fn ∧
      stk ≤ stk + STACK_SIZE - 16 ∧
      (∀ a, ¬ (stk + STACK_SIZE - 16 ≤ a ∧ a < stk + STACK_SIZE) → s1.memory a = s.memory a) ∧
      s1.switches = s.switches ∧ s1.cpu = s.cpu := by
  obtain ⟨s1, h1, h2, h3, _, _, h6, h7, _⟩ :=
    grn_spawn_prime_spec STACK_SIZE start_thread fn p stk s hfresh
  have e16 : stk + STACK_SIZE - 8 - 8 = stk + STACK_SIZE - 16 := by omega
  have e8 : stk + STACK_SIZE - 8 = (stk + STACK_SIZE - 16) + 8 := by omega
  rw [e16] at h2 h3
  refine ⟨s1, _, h1, h2, rfl, rfl, rfl, ?_, ?_, by omega, ?_, h6, h7⟩
  · rw [h3]
    exact load64_memcpy64 _ _ _ hst
  · rw [h3, load64_unfold]
    have hout : ∀ i, i < 8 →
        memcpy64 (stk + STACK_SIZE - 16) start_thread
          (memcpy64 (stk + STACK_SIZE - 8) fn s.memory) (stk + STACK_SIZE - 8 + i)
        = memcpy64 (stk + STACK_SIZE - 8) fn s.memory (stk + STACK_SIZE - 8 + i) := by
      intro i _
      apply memcpy64_outside
      omega
    rw [hout 0 (by omega), hout 1 (by omega), hout 2 (by omega), hout 3 (by omega),
      hout 4 (by omega), hout 5 (by omega), hout 6 (by omega), hout 7 (by omega),
      ← load64_unfold]
    exact load64_memcpy64 _ _ _ hfn
  · intro a ha
    rw [h3, memcpy64_outside _ _ _ a (by omega), memcpy64_outside _ _ _ a (by omega)]

/-- Witness of `primed_stack_layout`: a stack of 4096 bytes at 10000 for the
first thread spawned after `grn_init`. -/
theorem primed_stack_layout_witness :
    boot_only.heap 2 = none ∧ 16 ≤ 4096 ∧ 666 < 2 ^ 64 ∧ 555 < 2 ^ 64 ∧
    ∃ s1 t, grn_spawn_prime 4096 555 666 2 10000 boot_only = some (2, s1) ∧
      s1.heap 2 = some t ∧ t.status = READY ∧ t.stack = some 10000 ∧
      t.context.rsp = 10000 + 4096 - 16 ∧
      load64 s1.memory (10000 + 4096 - 16) = 555 ∧
      load64 s1.memory (10000 + 4096 - 8) = 666 ∧
      10000 ≤ 10000 + 4096 - 16 ∧
      (∀ a, ¬ (10000 + 4096 - 16 ≤ a ∧ a < 10000 + 4096) →
        s1.memory a = boot_only.memory a) ∧
      s1.switches = boot_only.switches ∧ s1.cpu = boot_only.cpu :=
  ⟨rfl, by decide, by norm_num, by norm_num,
    primed_stack_layout 4096 555 666 2 10000 boot_only rfl (by decide) (by norm_num)
      (by norm_num)⟩

/-! ## Theorems: the bootstrap thread -/

theorem reachable_inv (s : floral_state) (h : reachable s) : running_is_current s := by
  induction h with
  | init cpu memory p s h => exact running_grn_init cpu memory p s h
  | step s s1 _ hs ih => exact running_sched_step s s1 ih hs

theorem id_of_demoted (s : floral_state) (cur : Ptr) (tc : grn_thread)
    (hc : s.heap cur = some tc) (q : Ptr) : id_of (demoted s cur tc) q = id_of s q := by
  by_cases h : q = cur
  · subst h; simp [id_of, demoted, hc]
  · simp [id_of, demoted, h]

theorem id_of_switched (s : floral_state) (cur n : Ptr) (tc tn : grn_thread)
    (hc : s.heap cur = some tc) (hn : s.heap n = some tn) (q : Ptr) :
    id_of (switched s cur n tc tn) q = id_of s q := by
  by_cases h1 : q = n
  · subst h1; simp [id_of, switched, hn]
  · by_cases h2 : q = cur
    · subst h2; simp [id_of, switched, h1, hc]
    · simp [id_of, switched, h1, h2]

theorem status_of_demoted (s : floral_state) (cur : Ptr) (tc : grn_thread)
    (hc : s.heap cur = some tc) (q : Ptr)
    (h : status_of s q = some RUNNING ∨ status_of s q = some READY) :
    status_of (demoted s cur tc) q = some RUNNING ∨ status_of (demoted s cur tc) q = some READY := by
  by_cases hq : q = cur
  · subst hq
    right
    rcases h with h | h
    · have : tc.status = RUNNING := by simpa [status_of, hc] using h
      simp [status_of, demoted, this]
    · have : tc.status = READY := by simpa [status_of, hc] using h
      simp [status_of, demoted, this]
  · simpa [status_of, demoted, hq] using h

theorem status_of_switched (s : floral_state) (cur n : Ptr) (tc tn : grn_thread)
    (hc : s.heap cur = some tc) (q : Ptr)
    (h : status_of s q = some RUNNING ∨ status_of s q = some READY) :
    status_of (switched s cur n tc tn) q = some RUNNING ∨
      status_of (switched s cur n tc tn) q = some READY := by
  by_cases h1 : q = n
  · subst h1; left; simp [status_of, switched]
  · by_cases hq : q = cur
    · subst hq
      right
      rcases h with h | h
      · have : tc.status = RUNNING := by simpa [status_of, hc] using h
        simp [status_of, switched, h1, this]
      · have : tc.status = READY := by simpa [status_of, hc] using h
        simp [status_of, switched, h1, this]
    · simpa [status_of, switched, h1, hq] using h

theorem bootstrap_of_cases (s s1 : floral_state) (ret : Int) (cur : Ptr) (tc : grn_thread)
    (hc : s.heap cur = some tc) (hb : bootstrap_alive s)
    (h : (ret = -1 ∧ s1 = demoted s cur tc) ∨
      (ret = 0 ∧ ∃ n tn, n ∈ s.threads ∧ n ≠ cur ∧ s.heap n = some tn ∧ tn.status = READY ∧
        s1 = switched s cur n tc tn)) :
    bootstrap_alive s1 := by
  obtain ⟨⟨b, hbm, hbid⟩, hall⟩ := hb
  rcases h with ⟨_, rfl⟩ | ⟨_, n, tn, hnm, _, hn, _, rfl⟩
  · refine ⟨⟨b, hbm, by rw [id_of_demoted s cur tc hc]; exact hbid⟩, ?_⟩
    intro p hp hid
    rw [id_of_demoted s cur tc hc] at hid
    exact status_of_demoted s cur tc hc p (hall p hp hid)
  · refine ⟨⟨b, (mem_switched s cur n tc tn b hnm).2 hbm,
      by rw [id_of_switched s cur n tc tn hc hn]; exact hbid⟩, ?_⟩
    intro p hp hid
    rw [id_of_switched s cur n tc tn hc hn] at hid
    exact status_of_switched s cur n tc tn hc p
      (hall p ((mem_switched s cur n tc tn p hnm).1 hp) hid)

theorem bootstrap_grn_yield (condition ret : Int) (s s1 : floral_state) (hwf : wf s)
    (hb : bootstrap_alive s) (h : grn_yield condition s = some (ret, s1)) :
    bootstrap_alive s1 := by
  obtain ⟨cur, tc, hcur, _, hc⟩ := wf_current s hwf
  exact bootstrap_of_cases s s1 ret cur tc hc hb
    (grn_yield_cases condition ret s s1 cur tc hwf hcur hc h)

theorem bootstrap_grn_wait (condition ret : Int) (s s1 : floral_state) (hwf : wf s)
    (hb : bootstrap_alive s) (h : grn_wait condition s = some (ret, s1)) :
    bootstrap_alive s1 := by
  obtain ⟨cur, tc, hcur, _, hc⟩ := wf_current s hwf
  exact bootstrap_of_cases s s1 ret cur tc hc hb
    (grn_wait_cases condition ret s s1 cur tc hwf hcur hc h)

theorem set_status_ids (s s1 : floral_state) (p : Ptr) (st : grn_status)
    (h : set_status p st s = some s1) :
    s1.threads = s.threads ∧ ∀ q, id_of s1 q = id_of s q := by
  unfold set_status at h
  cases hp : s.heap p with
  | none => simp [hp] at h
  | some t =>
    simp only [hp, Option.some.injEq] at h
    subst h
    refine ⟨rfl, ?_⟩
    intro q
    by_cases hq : q = p
    · subst hq; simp [id_of, hp]
    · simp [id_of, hq]

theorem grn_context_switch_spec (from_thread to_thread : Ptr) (s s1 : floral_state)
    (h : grn_context_switch from_thread to_thread s = some s1) :
    s1.threads = s.threads ∧ s1.current = s.current ∧
      ∀ q, id_of s1 q = id_of s q ∧ status_of s1 q = status_of s q := by
  unfold grn_context_switch at h
  cases hf : s.heap from_thread with
  | none => simp [hf] at h
  | some f =>
    simp only [hf] at h
    split at h
    · cases h
    · simp only [Option.some.injEq] at h
      subst h
      refine ⟨rfl, rfl, ?_⟩
      intro q
      by_cases hq : q = from_thread
      · subst hq; simp [id_of, status_of, hf]
      · simp [id_of, status_of, hq]

theorem grn_spawn_begin_ids (STACK_SIZE start_thread fn : Nat) (p : Ptr) (stk : Nat)
    (n : Ptr) (s s1 : floral_state)
    (h : grn_spawn_begin STACK_SIZE start_thread fn p stk s = some (n, s1)) :
    ∀ q, q ≠ p → id_of s1 q = id_of s q := by
  have hfresh := (grn_spawn_begin_spec STACK_SIZE start_thread fn p stk n s s1 h).1
  obtain ⟨sp, h1, _, _, _, _, _, _, h8⟩ :=
    grn_spawn_prime_spec STACK_SIZE start_thread fn p stk s hfresh
  rw [grn_spawn_begin_eq_prime, h1] at h
  simp only [Option.some_bind] at h
  cases hcur : sp.current with
  | none => simp [hcur] at h
  | some cur =>
    simp only [hcur, Option.some_bind] at h
    cases hsw : grn_context_switch cur p sp with
    | none => simp [hsw] at h
    | some s6 =>
      simp only [hsw, Option.map_some', Option.some.injEq, Prod.mk.injEq] at h
      obtain ⟨_, rfl⟩ := h
      intro q hq
      rw [(grn_context_switch_spec cur p sp s6 hsw).2.2 q |>.1]
      simp [id_of, h8 q hq]

theorem bootstrap_grn_spawn_begin (STACK_SIZE start_thread fn : Nat) (p : Ptr) (stk : Nat)
    (n : Ptr) (s s1 : floral_state) (hwf : wf s) (hb : bootstrap_alive s)
    (h : grn_spawn_begin STACK_SIZE start_thread fn p stk s = some (n, s1)) :
    bootstrap_alive s1 := by
  obtain ⟨hfresh, _, hthr, _, hsp, hso⟩ :=
    grn_spawn_begin_spec STACK_SIZE start_thread fn p stk n s s1 h
  have hids := grn_spawn_begin_ids STACK_SIZE start_thread fn p stk n s s1 h
  have hpn : ∀ q ∈ s.threads, q ≠ p := by
    intro q hq e
    have := hwf.2.1 q hq
    rw [e, hfresh] at this
    cases this
  obtain ⟨⟨b, hbm, hbid⟩, hall⟩ := hb
  refine ⟨⟨b, by rw [hthr]; simp [hbm], by rw [hids b (hpn b hbm)]; exact hbid⟩, ?_⟩
  intro q hq hid
  rw [hthr] at hq
  by_cases hqp : q = p
  · right; rw [hqp]; exact hsp
  · have hq2 : q ∈ s.threads := by
      rcases List.mem_append.1 hq with h1 | h1
      · exact h1
      · exact absurd (by simpa using h1) hqp
    rw [hids q hqp] at hid
    rw [hso q hqp]
    exact hall q hq2 hid

theorem bootstrap_grn_exit (s s1 : floral_state) (hwf : wf s) (hb : bootstrap_alive s)
    (h : grn_exit s = exit_result.returned s1) : bootstrap_alive s1 := by
  unfold grn_exit at h
  cases hcur : s.current with
  | none => simp [hcur] at h
  | some cur =>
    cases hc : s.heap cur with
    | none => simp [hcur, hc] at h
    | some t =>
      simp only [hcur, hc] at h
      by_cases hid : t.id = 0
      · simp [hid] at h
      · simp only [hid, if_false] at h
        cases hz : set_status cur ZOMBIE s with
        | none => simp [hz] at h
        | some sz =>
          simp only [hz] at h
          have hwfz := wf_set_status s sz cur ZOMBIE hwf hz
          obtain ⟨_, _, hzo⟩ := set_status_spec s sz cur ZOMBIE hz
          obtain ⟨hzt, hzi⟩ := set_status_ids s sz cur ZOMBIE hz
          have hbz : bootstrap_alive sz := by
            obtain ⟨⟨b, hbm, hbid⟩, hall⟩ := hb
            refine ⟨⟨b, by rw [hzt]; exact hbm, by rw [hzi]; exact hbid⟩, ?_⟩
            intro q hq hqid
            rw [hzi] at hqid
            rw [hzt] at hq
            have hqc : q ≠ cur := by
              intro e
              rw [e] at hqid
              simp only [id_of, hc, Option.map_some', Option.some.injEq] at hqid
              exact hid hqid
            rw [hzo q hqc]
            exact hall q hq hqid
          cases hy : grn_yield 0 sz with
          | none => simp [hy] at h
          | some r =>
            obtain ⟨ret, s2⟩ := r
            simp only [hy, exit_result.returned.injEq] at h
            subst h
            exact bootstrap_grn_yield 0 ret sz s2 hwfz hbz hy

theorem bootstrap_grn_init (cpu : grn_context) (memory : Nat → Nat) (p : Ptr) (s : floral_state)
    (h : grn_init p (STATE cpu memory) = some s) : bootstrap_alive s := by
  simp only [grn_init, grn_new_thread, STATE, add_thread, set_status, Option.bind_eq_bind,
    Option.some_bind, if_true, List.nil_append, Option.some.injEq] at h
  subst h
  refine ⟨⟨p, List.mem_singleton_self p, by simp [id_of]⟩, ?_⟩
  intro q hq _
  have : q = p := by simpa using hq
  left
  simp [status_of, this]

theorem reachable_bootstrap (s : floral_state) (h : reachable s) :
    running_is_current s ∧ bootstrap_alive s := by
  induction h with
  | init cpu memory p s h =>
    exact ⟨running_grn_init cpu memory p s h, bootstrap_grn_init cpu memory p s h⟩
  | step s s1 _ hs ih =>
    refine ⟨running_sched_step s s1 ih.1 hs, ?_⟩
    cases hs with
    | spawn STACK_SIZE start_thread fn p stk n h =>
      exact bootstrap_grn_spawn_begin STACK_SIZE start_thread fn p stk n s s1 ih.1.1 ih.2 h
    | yield condition ret h => exact bootstrap_grn_yield condition ret s s1 ih.1.1 ih.2 h
    | wait condition ret h => exact bootstrap_grn_wait condition ret s s1 ih.1.1 ih.2 h
    | exit h => exact bootstrap_grn_exit s s1 ih.1.1 ih.2 h
    | gc h =>
      have : s1 = s := by
        unfold grn_gc grn_current at h
        cases hcur : s.current with
        | none => simp [hcur] at h
        | some cur =>
          simp only [hcur, Option.bind_eq_bind, Option.some_bind] at h
          exact gc_loop_unchanged _ cur s s1 h
      rw [this]; exact ih.2

theorem gc_destroyed_freed (fuel : Nat) (c : Ptr) (s : floral_state) (h : s.heap c = none) :
    gc_destroyed fuel c s = [] := by
  cases fuel with
  | zero => rfl
  | succ k => simp [gc_destroyed, next_thread, h]

theorem gc_destroyed_zombie (s : floral_state) (fuel : Nat) :
    ∀ (c d : Ptr), d ∈ gc_destroyed fuel c s → status_of s d = some ZOMBIE := by
  induction fuel with
  | zero => intro c d h; simp [gc_destroyed] at h
  | succ k ih =>
    intro c d h
    unfold gc_destroyed at h
    cases hn : next_thread s c with
    | none => simp [hn] at h
    | some e =>
      simp only [hn] at h
      by_cases he : some e = s.current
      · simp [he] at h
      · simp only [he, if_false] at h
        cases ht : s.heap e with
        | none => simp [ht] at h
        | some t =>
          simp only [ht] at h
          by_cases hz : t.status = ZOMBIE
          · simp only [hz, if_true] at h
            cases hx : grn_destroy_thread e s with
            | none => simp [hx] at h
            | some s2 =>
              simp only [hx] at h
              have hfree : s2.heap e = none := by
                simp only [grn_destroy_thread, ht, Option.some.injEq] at hx
                rw [← hx]; simp
              rw [gc_destroyed_freed k e s2 hfree] at h
              have : d = e := by simpa using h
              rw [this]
              simp [status_of, ht, hz]
          · simp only [hz, if_false] at h
            exact ih e d h

/-- C14: in every state reachable from `grn_init` by calls of `grn_spawn`,
`grn_yield`, `grn_wait`, `grn_exit` (on a thread that is not the bootstrap
thread) and `grn_gc`, the ring holds a TCB with id 0, so it is not empty; and
every TCB of the ring with id 0 is RUNNING or READY, never ZOMBIE, is not
among the TCBs `grn_gc` destroys, is still in the ring when `grn_gc` returns,
and ends the process with `exit(0)` if it calls `grn_exit`. -/
theorem bootstrap_stays_in_ring (s : floral_state) (h : reachable s) :
    (∃ b ∈ s.threads, id_of s b = some 0) ∧ s.threads ≠ [] ∧
    ∀ p ∈ s.threads, id_of s p = some 0 →
      (status_of s p = some RUNNING ∨ status_of s p = some READY) ∧
      status_of s p ≠ some ZOMBIE ∧
      (∀ cur, s.current = some cur → p ∉ gc_destroyed s.threads.length cur s) ∧
      (∀ s1, grn_gc s = some s1 → p ∈ s1.threads ∧ id_of s1 p = some 0) ∧
      (s.current = some p → exit_status (grn_exit s) = some 0) := by
  obtain ⟨_, ⟨b, hbm, hbid⟩, hall⟩ := reachable_bootstrap s h
  refine ⟨⟨b, hbm, hbid⟩, List.ne_nil_of_mem hbm, ?_⟩
  intro p hp hid
  have hst := hall p hp hid
  have hnz : status_of s p ≠ some ZOMBIE := by
    rcases hst with h1 | h1 <;> rw [h1] <;> simp
  refine ⟨hst, hnz, ?_, ?_, ?_⟩
  · intro cur _ hmem
    exact hnz (gc_destroyed_zombie s _ cur p hmem)
  · intro s1 hgc
    have : s1 = s := by
      unfold grn_gc grn_current at hgc
      cases hcur : s.current with
      | none => simp [hcur] at hgc
      | some cur =>
        simp only [hcur, Option.bind_eq_bind, Option.some_bind] at hgc
        exact gc_loop_unchanged _ cur s s1 hgc
    rw [this]
    exact ⟨hp, hid⟩
  · intro hcur
    unfold id_of at hid
    cases ht : s.heap p with
    | none => simp [ht] at hid
    | some t =>
      have h0 : t.id = 0 := by simpa [ht] using hid
      simp [grn_exit, hcur, ht, h0, exit_status]

/-- Witness of `bootstrap_stays_in_ring`: the state `grn_init` leaves. -/
theorem bootstrap_stays_in_ring_witness :
    reachable boot_only ∧
    ((∃ b ∈ boot_only.threads, id_of boot_only b = some 0) ∧ boot_only.threads ≠ [] ∧
    ∀ p ∈ boot_only.threads, id_of boot_only p = some 0 →
      (status_of boot_only p = some RUNNING ∨ status_of boot_only p = some READY) ∧
      status_of boot_only p ≠ some ZOMBIE ∧
      (∀ cur, boot_only.current = some cur →
        p ∉ gc_destroyed boot_only.threads.length cur boot_only) ∧
      (∀ s1, grn_gc boot_only = some s1 → p ∈ s1.threads ∧ id_of s1 p = some 0) ∧
      (boot_only.current = some p → exit_status (grn_exit boot_only) = some 0)) :=
  ⟨reachable.init { rsp := 0 } (fun _ => 0) 1 boot_only grn_init_boot_only,
    bootstrap_stays_in_ring boot_only
      (reachable.init { rsp := 0 } (fun _ => 0) 1 boot_only grn_init_boot_only)⟩

/-! ## Theorems: `grn_exit` -/

theorem grn_exit_returns (s : floral_state) (cur : Ptr) (t : grn_thread) (hr : reachable s)
    (hcur : s.current = some cur) (hc : s.heap cur = some t) (hid : t.id ≠ 0) :
    ∃ s2 n, grn_exit s = exit_result.returned s2 ∧ s2.current = some n ∧ n ≠ cur ∧
      status_of s n = some READY ∧ status_of s2 n = some RUNNING ∧
      status_of s2 cur = some ZOMBIE ∧ s2.cpu = s.cpu ∧
      s2.switches = s.switches ++ [(n, n)] := by
  obtain ⟨⟨hwf, hrun⟩, ⟨b, hbm, hbid⟩, hall⟩ := reachable_bootstrap s hr
  have hbc : b ≠ cur := by
    intro e
    rw [e] at hbid
    simp only [id_of, hc, Option.map_some', Option.some.injEq] at hbid
    exact hid hbid
  have hbr : status_of s b = some READY := by
    rcases hall b hbm hbid with h1 | h1
    · have := hrun b hbm h1
      rw [hcur] at this
      exact absurd (Option.some.inj this).symm hbc
    · exact h1
  cases hz : set_status cur ZOMBIE s with
  | none => simp [set_status, hc] at hz
  | some sz =>
    have hwfz := wf_set_status s sz cur ZOMBIE hwf hz
    obtain ⟨hzc, hzp, hzo⟩ := set_status_spec s sz cur ZOMBIE hz
    obtain ⟨hzt, _⟩ := set_status_ids s sz cur ZOMBIE hz
    have hzcpu : sz.cpu = s.cpu ∧ sz.switches = s.switches := by
      simp only [set_status, hc, Option.some.injEq] at hz
      rw [← hz]
      exact ⟨rfl, rfl⟩
    have hcurz : sz.current = some cur := by rw [hzc]; exact hcur
    obtain ⟨tcz, htcz⟩ : ∃ tcz, sz.heap cur = some tcz := by
      cases e : sz.heap cur with
      | none => simp [status_of, e] at hzp
      | some x => exact ⟨x, rfl⟩
    have htczs : tcz.status = ZOMBIE := by simpa [status_of, htcz] using hzp
    have hbrz : status_of sz b = some READY := by rw [hzo b hbc]; exact hbr
    obtain ⟨tb, htb⟩ : ∃ tb, sz.heap b = some tb := by
      cases e : sz.heap b with
      | none => simp [status_of, e] at hbrz
      | some x => exact ⟨x, rfl⟩
    have htbs : tb.status = READY := by simpa [status_of, htb] using hbrz
    obtain ⟨n, hn⟩ := yield_choice_isSome 0 sz cur b tb hwfz hcurz (by rw [hzt]; exact hbm)
      hbc htb htbs
    obtain ⟨_, hnc, tn, htn, htns⟩ := yield_choice_some 0 sz cur n hwfz hcurz hn
    have hy := grn_yield_ok_eq 0 sz cur n tcz tn hwfz hcurz htcz hn htn hnc
    refine ⟨switched sz cur n tcz tn, n, ?_, rfl, hnc, ?_, ?_, ?_, ?_, ?_⟩
    · simp [grn_exit, hcur, hc, hid, hz, hy]
    · rw [← hzo n hnc]
      simp [status_of, htn, htns]
    · simp [status_of, switched]
    · simp [status_of, switched, Ne.symm hnc, htczs]
    · exact hzcpu.1
    · show sz.switches ++ [(n, n)] = _
      rw [hzcpu.2]

/-- C11 fails on the code: `grn_exit` comes back to its caller.  On the
bootstrap thread (id 0) it ends the process with `exit(0)`, as claimed.  On
the spawned thread of `spawned_running` (TCB at 2, id 1, RUNNING and current,
on its own stack) it marks the caller ZOMBIE and `grn_yield(0)` finds the
bootstrap thread, which becomes RUNNING and current; but the context switch
made is from the chosen context to itself, so the processor stays on the stack
of the exiting thread, `grn_yield` returns 0 and `grn_exit` returns. -/
theorem grn_exit_returns_to_caller :
    exit_status (grn_exit boot_only) = some 0 ∧
    spawned_running.map
        (fun s => (s.current, id_of s 2, status_of s 1, status_of s 2, s.cpu.rsp, s.switches))
      = some (some 2, some 1, some READY, some RUNNING, 14080, [(1, 2), (2, 2)]) ∧
    (spawned_running.bind (fun s => exit_returned (grn_exit s))).map
        (fun s => (s.current, status_of s 1, status_of s 2, s.cpu.rsp, s.switches))
      = some (some 1, some RUNNING, some ZOMBIE, 14080, [(1, 2), (2, 2), (1, 1)]) := by
  exact ⟨rfl, rfl, rfl⟩

end Floral
